import Mathlib

/-!
Verification development for the RFM aggregation pipeline and marketing
scoring engine of the `gili-cli` repository.

The Python sources are shallowly embedded over `List`-based tables:

* `src/utils/helpers.py` — string/number helpers (`normalize_sku`,
  `format_to_comma_decimal`, `parse_comma_decimal`);
* `src/processors/rfm.py` — the `RFMProcessor` pipeline;
* `src/processors/scoring.py` — `DefaultScoringStrategy` and
  `MarketingScorer`;
* `src/core/client.py` — only the order search-criteria filter
  (status / minimum creation date) that feeds the processor;
* `src/core/exceptions.py` — `DataProcessingError`.

Numbers are modelled with `ℚ` (pandas float columns), timestamps with a
record carrying the calendar year and an absolute day number (pandas
datetimes at day resolution, as produced by the `%Y-%m-%d` parse in
`_clean_data`), and nullable cells with `Option`.
-/

/-! ### Python string primitives

Python `str` values are modelled as `String` and manipulated through
`List Char`, mirroring the exact character-level operations the sources
use (`str.lower`, `str.strip`, `str.replace`, `str.zfill`, `str.isdigit`).
-/

/-- Python `str.lower` on one character, restricted to the alphabets that
occur in this code base: ASCII letters plus `Í` (the accented capital of
the literal `"Sí"`). -/
def pyLowerChar (c : Char) : Char :=
  if 65 ≤ c.toNat ∧ c.toNat ≤ 90 then Char.ofNat (c.toNat + 32)
  else if c.toNat = 205 then Char.ofNat 237 else c

/-- Python `str.lower` (also pandas `Series.str.lower`). -/
def pyLowerStr (s : String) : String := ⟨s.data.map pyLowerChar⟩

/-- Characters treated as whitespace by Python `str.strip()`. -/
def isSpaceChar (c : Char) : Bool :=
  c = ' ' || c = '\t' || c = '\n' || c = '\x0d' || c = '\x0b' || c = '\x0c'

/-- Python `str.strip()` on a character list. -/
def pyStripChars (l : List Char) : List Char :=
  ((l.dropWhile isSpaceChar).reverse.dropWhile isSpaceChar).reverse

/-- Python `str.strip()`. -/
def pyStrip (s : String) : String := ⟨pyStripChars s.data⟩

/-- Python `str.replace(" ", "")` (also pandas `Series.str.replace`):
removes every plain space character. -/
def removeSpaces (s : String) : String := ⟨s.data.filter (fun c => c ≠ ' ')⟩

/-- ASCII decimal digit test. -/
def isDigitChar (c : Char) : Bool := 48 ≤ c.toNat && c.toNat ≤ 57

/-- Python `str.isdigit()` (ASCII fragment): nonempty and all digits. -/
def isDigitStr (s : String) : Bool := !s.data.isEmpty && s.data.all isDigitChar

/-- Pandas `Series.str.zfill(w)`: pad on the left with `'0'` up to width
`w` (pandas, unlike `str.zfill`, gives no special treatment to signs; in
`helpers.normalize_sku` the Python `str.zfill` is only reached on
digit-only strings, where the two behaviours agree). -/
def padLeftZeros (w : ℕ) (s : String) : String :=
  ⟨List.replicate (w - s.data.length) '0' ++ s.data⟩

/-- Code-point lexicographic comparison of character lists (the order
Python uses for `str` comparison and pandas for string group keys). -/
def chLe : List Char → List Char → Bool
  | [], _ => true
  | _ :: _, [] => false
  | a :: as, b :: bs => if a.toNat = b.toNat then chLe as bs else a.toNat < b.toNat

/-- Code-point order on strings, as a proposition. -/
def strLe (a b : String) : Prop := chLe a.data b.data = true

instance : DecidableRel strLe := fun a b => by unfold strLe; infer_instance

theorem chLe_total : ∀ a b : List Char, chLe a b = true ∨ chLe b a = true := by
  intro a
  induction a with
  | nil => intro b; left; rfl
  | cons x xs ih =>
    intro b
    cases b with
    | nil => right; rfl
    | cons y ys =>
      by_cases hxy : x.toNat = y.toNat
      · rcases ih ys with h | h
        · left; simp [chLe, hxy, h]
        · right; simp [chLe, hxy.symm, h]
      · rcases Nat.lt_or_ge x.toNat y.toNat with h | h
        · left; simp [chLe, hxy, h]
        · have hyx : ¬ y.toNat = x.toNat := fun e => hxy e.symm
          right
          simp only [chLe, if_neg hyx]
          simpa [decide_eq_true_iff] using lt_of_le_of_ne h hyx

theorem chLe_trans : ∀ a b c : List Char,
    chLe a b = true → chLe b c = true → chLe a c = true := by
  intro a
  induction a with
  | nil => intro b c _ _; rfl
  | cons x xs ih =>
    intro b c h1 h2
    cases b with
    | nil => simp [chLe] at h1
    | cons y ys =>
      cases c with
      | nil => simp [chLe] at h2
      | cons z zs =>
        simp only [chLe] at h1 h2 ⊢
        by_cases hxy : x.toNat = y.toNat <;> by_cases hyz : y.toNat = z.toNat
        · rw [if_pos hxy] at h1; rw [if_pos hyz] at h2
          rw [if_pos (hxy.trans hyz)]
          exact ih ys zs h1 h2
        · rw [if_pos hxy] at h1; rw [if_neg hyz] at h2
          rw [if_neg (hxy ▸ hyz)]
          exact hxy ▸ h2
        · rw [if_neg hxy] at h1; rw [if_pos hyz] at h2
          rw [if_neg (fun e => hxy (e.trans hyz.symm))]
          exact hyz ▸ h1
        · rw [if_neg hxy] at h1; rw [if_neg hyz] at h2
          have hx : x.toNat < y.toNat := by simpa [decide_eq_true_iff] using h1
          have hy : y.toNat < z.toNat := by simpa [decide_eq_true_iff] using h2
          have hxz : x.toNat < z.toNat := hx.trans hy
          rw [if_neg (Nat.ne_of_lt hxz)]
          simpa [decide_eq_true_iff] using hxz

instance : IsTotal String strLe := ⟨fun a b => chLe_total a.data b.data⟩

instance : IsTrans String strLe := ⟨fun a b c => chLe_trans a.data b.data c.data⟩

/-- Group keys of a pandas `groupby` with the default `sort=True`: the
distinct values, in ascending (code-point) order. -/
def groupKeys (l : List String) : List String :=
  List.insertionSort strLe l.dedup

theorem mem_groupKeys {l : List String} {e : String} :
    e ∈ groupKeys l ↔ e ∈ l := by
  rw [groupKeys, (List.perm_insertionSort strLe l.dedup).mem_iff, List.mem_dedup]

theorem nodup_groupKeys (l : List String) : (groupKeys l).Nodup :=
  (List.perm_insertionSort strLe l.dedup).nodup_iff.mpr l.nodup_dedup

theorem sorted_groupKeys (l : List String) :
    List.Sorted strLe (groupKeys l) :=
  List.sorted_insertionSort strLe l.dedup

/-! ### `src/utils/helpers.py` — SKU normalization

`normalize_sku` (helpers.py lines 96–125) and the inline pandas variant
used on both sides of the item/catalog join
(`rfm.py` lines 342–343: `.astype(str).str.strip().str.replace(' ', '').str.zfill(5)`).
-/

/-- Embedding of `helpers.normalize_sku`: `None`/NaN ↦ `""`; otherwise
strip, remove internal spaces, and zero-pad to width 5 only when the
remaining string is all digits. -/
def normalizeSku (sku : Option String) : String :=
  match sku with
  | none => ""
  | some s =>
    let c := removeSpaces (pyStrip s)
    if isDigitStr c then padLeftZeros 5 c else c

/-- Embedding of the SKU normalization applied in
`RFMProcessor._analyze_preferences` to the `sku` column of both `items`
and `catalog`: strip, remove spaces, and zero-pad to width 5
unconditionally (pandas `str.zfill` pads digit and non-digit strings
alike). -/
def skuJoinNormalize (s : String) : String :=
  padLeftZeros 5 (removeSpaces (pyStrip s))

/-! ### `src/utils/helpers.py` — Argentine decimal formatting

`format_to_comma_decimal` (lines 68–93) renders `f"{float(value):,.2f}"`
and then swaps the separators with the three-step replace
`,→X`, `.→,`, `X→.`; `parse_comma_decimal` (lines 163–206) inverts the
convention.  Numbers are modelled as exact rationals; the two-decimal
rendering of CPython's `format` (round-half-even on the decimal value)
is modelled by `roundCents`.
-/

/-- Little-endian base-10 digits with explicit fuel (so that the
definition is structurally recursive and kernel-evaluable). -/
def digitsLEAux : ℕ → ℕ → List ℕ
  | 0, _ => []
  | _, 0 => []
  | fuel + 1, n + 1 => ((n + 1) % 10) :: digitsLEAux fuel ((n + 1) / 10)

/-- Little-endian base-10 digits; `0` renders as `[0]`. -/
def digitsLE (n : ℕ) : List ℕ :=
  if n = 0 then [0] else digitsLEAux n n

/-- The ASCII character of one decimal digit. -/
def digitChar (d : ℕ) : Char := Char.ofNat (48 + d)

/-- Thousands grouping of Python's `format(n, ',')`, working on a
little-endian digit-character list: a separator after every third
character (counted from the units digit). -/
def group3 : List Char → List Char
  | [] => []
  | [a] => [a]
  | [a, b] => [a, b]
  | [a, b, c] => [a, b, c]
  | a :: b :: c :: d :: t => a :: b :: c :: ',' :: group3 (d :: t)

/-- The integer part of a Python `{:,.2f}` rendering: big-endian digits
with `','` thousands separators. -/
def groupedIntChars (n : ℕ) : List Char :=
  (group3 ((digitsLE n).map digitChar)).reverse

/-- The two fractional digits of a `{:,.2f}` rendering (`fr < 100`). -/
def twoFracChars (fr : ℕ) : List Char :=
  [digitChar (fr / 10), digitChar (fr % 10)]

/-- Banker's rounding of `100 * q` to an integer — the exact-arithmetic
model of CPython's two-decimal `format` rounding — computed on
`num`/`den` so that it kernel-evaluates. -/
def roundCents (q : ℚ) : ℤ :=
  let n : ℤ := 100 * q.num
  let d : ℤ := (q.den : ℤ)
  let f : ℤ := n.fdiv d
  let r2 : ℤ := 2 * (n - f * d)
  if r2 < d then f
  else if d < r2 then f + 1
  else if f % 2 = 0 then f else f + 1

/-- Python `f"{x:,.2f}"` on an exact rational. -/
def pyFormatFixed2 (x : ℚ) : List Char :=
  let a := (roundCents x).natAbs
  (if x.num < 0 then ['-'] else [])
    ++ groupedIntChars (a / 100) ++ '.' :: twoFracChars (a % 100)

/-- The separator swap of `format_to_comma_decimal`: the successive
single-character replaces `','→'X'`, `'.'→','`, `'X'→'.'`. -/
def swapSepChars (l : List Char) : List Char :=
  ((l.map (fun c => if c = ',' then 'X' else c)).map
      (fun c => if c = '.' then ',' else c)).map
    (fun c => if c = 'X' then '.' else c)

/-- Embedding of `helpers.format_to_comma_decimal`: `None`/NaN ↦
`"0,00"`, otherwise the swapped `{:,.2f}` rendering. -/
def formatToCommaDecimal (v : Option ℚ) : String :=
  match v with
  | none => "0,00"
  | some x => ⟨swapSepChars (pyFormatFixed2 x)⟩

/-- Numeric value of a big-endian digit-character list. -/
def ofCharsBE (l : List Char) : ℕ :=
  l.foldl (fun a c => 10 * a + (c.toNat - 48)) 0

/-- Python `float(str)` on an unsigned literal: all characters must be
digits or a single `'.'`, with at least one digit.  (The exponent/`inf`
forms of CPython's grammar never arise from the strings this code
feeds to `float`.) -/
def pyFloatCore (l : List Char) : Option ℚ :=
  if l.all (fun c => isDigitChar c || c = '.')
      && decide (l.count '.' ≤ 1) && l.any isDigitChar then
    let ip := l.takeWhile (fun c => c ≠ '.')
    let fp := (l.dropWhile (fun c => c ≠ '.')).drop 1
    some (mkRat (ofCharsBE ip * 10 ^ fp.length + ofCharsBE fp) (10 ^ fp.length))
  else none

/-- Python `float(str)` with an optional leading sign. -/
def pyFloatOfChars (l : List Char) : Option ℚ :=
  match l with
  | [] => none
  | c :: r =>
    if c = '-' then (pyFloatCore r).map (fun v => -v)
    else if c = '+' then pyFloatCore r
    else pyFloatCore (c :: r)

/-- Embedding of `helpers.parse_comma_decimal` on a string input: empty
↦ `0.0`; otherwise strip, try `float` directly, then drop the dots,
turn the comma into a dot and retry, defaulting to `0.0`. -/
def parseCommaDecimal (s : String) : ℚ :=
  if s = "" then 0
  else
    let t := pyStripChars s.data
    match pyFloatOfChars t with
    | some v => v
    | none =>
      let u := (t.filter (fun c => c ≠ '.')).map (fun c => if c = ',' then '.' else c)
      match pyFloatOfChars u with
      | some v => v
      | none => 0

/-! ### Arithmetic facts about the decimal rendering -/

/-- Value of a little-endian digit list. -/
def ofLE (l : List ℕ) : ℕ := l.foldr (fun d acc => 10 * acc + d) 0

theorem digitsLEAux_sound : ∀ fuel n : ℕ, n ≤ fuel → ofLE (digitsLEAux fuel n) = n := by
  intro fuel
  induction fuel with
  | zero => intro n h; interval_cases n; rfl
  | succ fuel ih =>
    intro n h
    match n with
    | 0 => rfl
    | m + 1 =>
      have hle : (m + 1) / 10 ≤ fuel := by
        have := Nat.div_lt_self (Nat.succ_pos m) (by norm_num : 1 < 10)
        omega
      have hrec := ih _ hle
      simp only [digitsLEAux, ofLE, List.foldr_cons]
      rw [show List.foldr (fun d acc => 10 * acc + d) 0 (digitsLEAux fuel ((m + 1) / 10))
            = ofLE (digitsLEAux fuel ((m + 1) / 10)) from rfl, hrec]
      omega

theorem digitsLEAux_lt : ∀ fuel n : ℕ, ∀ d ∈ digitsLEAux fuel n, d < 10 := by
  intro fuel
  induction fuel with
  | zero => intro n d hd; simp [digitsLEAux] at hd
  | succ fuel ih =>
    intro n d hd
    match n with
    | 0 => simp [digitsLEAux] at hd
    | m + 1 =>
      simp only [digitsLEAux, List.mem_cons] at hd
      rcases hd with h | h
      · omega
      · exact ih _ d h

theorem ofLE_digitsLE (n : ℕ) : ofLE (digitsLE n) = n := by
  by_cases h : n = 0
  · subst h; rfl
  · rw [digitsLE, if_neg h]; exact digitsLEAux_sound n n le_rfl

theorem digitsLE_lt (n : ℕ) : ∀ d ∈ digitsLE n, d < 10 := by
  intro d hd
  by_cases h : n = 0
  · subst h; simp [digitsLE] at hd; omega
  · rw [digitsLE, if_neg h] at hd; exact digitsLEAux_lt n n d hd

theorem digitsLE_ne_nil (n : ℕ) : digitsLE n ≠ [] := by
  by_cases h : n = 0
  · subst h; simp [digitsLE]
  · rw [digitsLE, if_neg h]
    match n, h with
    | m + 1, _ => simp [digitsLEAux]

theorem digitChar_toNat {d : ℕ} (h : d < 10) : (digitChar d).toNat = 48 + d := by
  interval_cases d <;> decide

theorem digitChar_props {d : ℕ} (h : d < 10) :
    isDigitChar (digitChar d) = true ∧ isSpaceChar (digitChar d) = false ∧
      digitChar d ≠ ',' ∧ digitChar d ≠ '.' ∧ digitChar d ≠ 'X' ∧
      digitChar d ≠ '-' ∧ digitChar d ≠ '+' := by
  interval_cases d <;> decide

theorem group3_subset : ∀ l : List Char, ∀ c ∈ group3 l, c ∈ l ∨ c = ',' := by
  intro l
  induction l using group3.induct with
  | case1 => intro c hc; simp [group3] at hc
  | case2 a => intro c hc; simp [group3] at hc; simp [hc]
  | case3 a b => intro c hc; simp [group3] at hc; rcases hc with h | h <;> simp [h]
  | case4 a b c0 => intro c hc; simp [group3] at hc; rcases hc with h | h | h <;> simp [h]
  | case5 a b c0 d t ih =>
    intro c hc
    simp only [group3, List.mem_cons] at hc
    rcases hc with h | h | h | h | h
    · left; simp [h]
    · left; simp [h]
    · left; simp [h]
    · right; exact h
    · rcases ih c h with h2 | h2
      · left; simp only [List.mem_cons] at h2 ⊢; tauto
      · right; exact h2

theorem group3_filter_comma : ∀ l : List Char, (∀ c ∈ l, c ≠ ',') →
    (group3 l).filter (fun c => c ≠ ',') = l := by
  intro l
  induction l using group3.induct with
  | case1 => intro _; rfl
  | case2 a => intro h; simp [group3, List.filter, h a (by simp)]
  | case3 a b =>
    intro h
    simp [group3, List.filter, h a (by simp), h b (by simp)]
  | case4 a b c0 =>
    intro h
    simp [group3, List.filter, h a (by simp), h b (by simp), h c0 (by simp)]
  | case5 a b c0 d t ih =>
    intro h
    have ha := h a (by simp)
    have hb := h b (by simp)
    have hc0 := h c0 (by simp)
    have hrec := ih (fun c hc => h c (by simp only [List.mem_cons] at hc ⊢; tauto))
    simp only [group3, List.filter_cons]
    simp only [ne_eq, decide_not] at hrec ⊢
    simp [ha, hb, hc0, hrec]

/-- The net effect of the three-step separator replace on a single
character (valid when no `'X'` occurs, which holds for rendered
numbers). -/
def swapSepChar (c : Char) : Char :=
  if c = ',' then '.' else if c = '.' then ',' else c

theorem swapSepChars_eq_map {l : List Char} (h : ∀ c ∈ l, c ≠ 'X') :
    swapSepChars l = l.map swapSepChar := by
  simp only [swapSepChars, List.map_map]
  refine List.map_congr_left (fun c hc => ?_)
  have hX := h c hc
  by_cases h1 : c = ','
  · subst h1; rfl
  · by_cases h2 : c = '.'
    · subst h2; rfl
    · simp [Function.comp, swapSepChar, h1, h2, hX]

theorem dropWhile_no_space {l : List Char} (h : ∀ c ∈ l, isSpaceChar c = false) :
    l.dropWhile isSpaceChar = l := by
  cases l with
  | nil => rfl
  | cons a t => simp [List.dropWhile_cons, h a (by simp)]

theorem pyStripChars_eq_self {l : List Char} (h : ∀ c ∈ l, isSpaceChar c = false) :
    pyStripChars l = l := by
  rw [pyStripChars, dropWhile_no_space h,
    dropWhile_no_space (fun c hc => h c (List.mem_reverse.mp hc)), List.reverse_reverse]

theorem split_at_dot {B T : List Char} (hB : ∀ c ∈ B, c ≠ '.') :
    (B ++ '.' :: T).takeWhile (fun c => c ≠ '.') = B ∧
      (B ++ '.' :: T).dropWhile (fun c => c ≠ '.') = '.' :: T := by
  induction B with
  | nil => constructor <;> simp [List.takeWhile_cons, List.dropWhile_cons]
  | cons a t ih =>
    have ha := hB a (by simp)
    obtain ⟨ih1, ih2⟩ := ih (fun c hc => hB c (by simp [hc]))
    have hpa : decide (a ≠ '.') = true := by simpa using ha
    constructor
    · simp only [List.cons_append, List.takeWhile_cons]
      rw [if_pos hpa, ih1]
    · simp only [List.cons_append, List.dropWhile_cons]
      rw [if_pos hpa, ih2]

theorem pyFloatCore_none_of_comma {l : List Char} (h : ',' ∈ l) :
    pyFloatCore l = none := by
  have hall : l.all (fun c => isDigitChar c || c = '.') = false := by
    rw [List.all_eq_false]
    exact ⟨',', h, by decide⟩
  rw [pyFloatCore, hall]
  simp

theorem pyFloatOfChars_none_of_comma {l : List Char} (h : ',' ∈ l) :
    pyFloatOfChars l = none := by
  cases l with
  | nil => rfl
  | cons c r =>
    rw [pyFloatOfChars]
    rcases List.mem_cons.mp h with hc | hr
    · have h1 : ¬ c = '-' := by rw [← hc]; decide
      have h2 : ¬ c = '+' := by rw [← hc]; decide
      rw [if_neg h1, if_neg h2, pyFloatCore_none_of_comma (hc ▸ List.mem_cons_self c r)]
    · by_cases h1 : c = '-'
      · rw [if_pos h1, pyFloatCore_none_of_comma hr]; rfl
      · by_cases h2 : c = '+'
        · rw [if_neg h1, if_pos h2, pyFloatCore_none_of_comma hr]
        · rw [if_neg h1, if_neg h2,
            pyFloatCore_none_of_comma (List.mem_cons_of_mem c hr)]

theorem pyFloatCore_digits {B T : List Char} (hB : ∀ c ∈ B, isDigitChar c = true)
    (hT : ∀ c ∈ T, isDigitChar c = true) (hTne : T ≠ []) :
    pyFloatCore (B ++ '.' :: T) =
      some (mkRat (ofCharsBE B * 10 ^ T.length + ofCharsBE T) (10 ^ T.length)) := by
  have hBdot : ∀ c ∈ B, c ≠ '.' := by
    intro c hc he
    have := hB c hc
    rw [he] at this
    exact absurd this (by decide)
  have hTdot : ∀ c ∈ T, c ≠ '.' := by
    intro c hc he
    have := hT c hc
    rw [he] at this
    exact absurd this (by decide)
  have hall : (B ++ '.' :: T).all (fun c => isDigitChar c || c = '.') = true := by
    rw [List.all_eq_true]
    intro c hc
    rcases List.mem_append.mp hc with h | h
    · simp [hB c h]
    · rcases List.mem_cons.mp h with h | h
      · simp [h]
      · simp [hT c h]
  have hcount : (B ++ '.' :: T).count '.' = 1 := by
    rw [List.count_append, List.count_cons]
    have h1 : B.count '.' = 0 := by
      rw [List.count_eq_zero]
      intro hmem
      exact hBdot '.' hmem rfl
    have h2 : T.count '.' = 0 := by
      rw [List.count_eq_zero]
      intro hmem
      exact hTdot '.' hmem rfl
    simp [h1, h2]
  have hany : (B ++ '.' :: T).any isDigitChar = true := by
    rw [List.any_eq_true]
    obtain ⟨c0, t0, rfl⟩ := List.exists_cons_of_ne_nil hTne
    exact ⟨c0, by simp, hT c0 (by simp)⟩
  obtain ⟨htake, hdrop⟩ := split_at_dot hBdot
  have hcond : ((B ++ '.' :: T).all (fun c => isDigitChar c || c = '.')
      && decide ((B ++ '.' :: T).count '.' ≤ 1)
      && (B ++ '.' :: T).any isDigitChar) = true := by
    rw [hall, hcount, hany]; rfl
  rw [pyFloatCore, if_pos hcond]
  rw [htake, hdrop]
  simp

theorem foldr_digitChar : ∀ le : List ℕ, (∀ d ∈ le, d < 10) →
    List.foldr (fun d acc => 10 * acc + ((digitChar d).toNat - 48)) 0 le = ofLE le := by
  intro le h
  induction le with
  | nil => rfl
  | cons d t ih =>
    have hd : d < 10 := h d (by simp)
    have ht := ih (fun x hx => h x (by simp [hx]))
    simp only [List.foldr_cons, ofLE, ht, digitChar_toNat hd]
    simp [ofLE]

theorem ofCharsBE_rev_map (le : List ℕ) (h : ∀ d ∈ le, d < 10) :
    ofCharsBE ((le.map digitChar).reverse) = ofLE le := by
  rw [ofCharsBE, List.foldl_reverse, List.foldr_map]
  exact foldr_digitChar le h

theorem ofCharsBE_twoFrac {fr : ℕ} (h : fr < 100) :
    ofCharsBE (twoFracChars fr) = fr := by
  have h1 : fr / 10 < 10 := by omega
  have h2 : fr % 10 < 10 := by omega
  simp only [twoFracChars, ofCharsBE, List.foldl_cons, List.foldl_nil,
    digitChar_toNat h1, digitChar_toNat h2]
  omega

theorem roundCents_nonneg {x : ℚ} (h : 0 ≤ x) : 0 ≤ roundCents x := by
  have hnum : 0 ≤ x.num := Rat.num_nonneg.mpr h
  have hd : (0 : ℤ) < (x.den : ℤ) := by exact_mod_cast x.den_pos
  have hN : 0 ≤ 100 * x.num := by positivity
  have hf : (100 * x.num).fdiv (x.den : ℤ) = (100 * x.num) / (x.den : ℤ) :=
    Int.fdiv_eq_ediv _ (le_of_lt hd)
  have hfpos : 0 ≤ (100 * x.num) / (x.den : ℤ) := Int.ediv_nonneg hN (le_of_lt hd)
  simp only [roundCents, hf]
  split_ifs <;> omega

theorem roundCents_nonpos {x : ℚ} (h : x < 0) : roundCents x ≤ 0 := by
  have hnum : x.num < 0 := by
    rcases lt_or_ge x.num 0 with h1 | h1
    · exact h1
    · exact absurd (Rat.num_nonneg.mp h1) (not_le.mpr h)
  have hd : (0 : ℤ) < (x.den : ℤ) := by exact_mod_cast x.den_pos
  have hN : 100 * x.num < 0 := by
    have : (0 : ℤ) < 100 := by norm_num
    exact mul_neg_of_pos_of_neg this hnum
  have hf : (100 * x.num).fdiv (x.den : ℤ) = (100 * x.num) / (x.den : ℤ) :=
    Int.fdiv_eq_ediv _ (le_of_lt hd)
  have hid : (x.den : ℤ) * ((100 * x.num) / (x.den : ℤ)) + (100 * x.num) % (x.den : ℤ)
      = 100 * x.num := Int.ediv_add_emod _ _
  have hmod0 : 0 ≤ (100 * x.num) % (x.den : ℤ) := Int.emod_nonneg _ (ne_of_gt hd)
  have hmodlt : (100 * x.num) % (x.den : ℤ) < (x.den : ℤ) := Int.emod_lt_of_pos _ hd
  have hrem : 100 * x.num - (100 * x.num) / (x.den : ℤ) * (x.den : ℤ)
      = (100 * x.num) % (x.den : ℤ) := by linarith [hid]
  have hfle : (100 * x.num) / (x.den : ℤ) ≤ 0 := by
    by_contra hpos
    push_neg at hpos
    nlinarith [hid, hmod0]
  simp only [roundCents, hf, hrem]
  split_ifs <;> nlinarith [hid, hmod0, hmodlt, hfle, hN, hd]

theorem roundCents_of_int {x : ℚ} {m : ℤ} (h : 100 * x = (m : ℚ)) :
    roundCents x = m := by
  have hd : (0 : ℤ) < (x.den : ℤ) := by exact_mod_cast x.den_pos
  have hdq : ((x.den : ℤ) : ℚ) ≠ 0 := by exact_mod_cast (ne_of_gt hd)
  have hx : (x.num : ℚ) / ((x.den : ℕ) : ℚ) = x := Rat.num_div_den x
  have hden : ((x.den : ℕ) : ℚ) ≠ 0 := by
    exact_mod_cast x.den_ne_zero
  have hnum_eq : (x.num : ℚ) = x * ((x.den : ℕ) : ℚ) := (div_eq_iff hden).mp hx
  have hNq : ((100 * x.num : ℤ) : ℚ) = (m : ℚ) * ((x.den : ℤ) : ℚ) := by
    push_cast
    push_cast at hnum_eq
    rw [hnum_eq, ← h]
    ring
  have hN : 100 * x.num = m * (x.den : ℤ) := by exact_mod_cast hNq
  have hf : (100 * x.num).fdiv (x.den : ℤ) = (100 * x.num) / (x.den : ℤ) :=
    Int.fdiv_eq_ediv _ (le_of_lt hd)
  have hfm : (100 * x.num) / (x.den : ℤ) = m := by
    rw [hN, Int.mul_ediv_cancel _ (ne_of_gt hd)]
  simp only [roundCents, hf, hfm]
  have hz : 2 * (100 * x.num - m * (x.den : ℤ)) = 0 := by rw [hN]; ring
  rw [hz]
  split_ifs <;> omega

/-- The character properties enjoyed by every rendered decimal digit. -/
def goodDigit (c : Char) : Prop :=
  isDigitChar c = true ∧ isSpaceChar c = false ∧ c ≠ ',' ∧ c ≠ '.' ∧
    c ≠ 'X' ∧ c ≠ '-' ∧ c ≠ '+'

theorem goodDigit_digitChar {d : ℕ} (h : d < 10) : goodDigit (digitChar d) := by
  have := digitChar_props h
  exact ⟨this.1, this.2.1, this.2.2.1, this.2.2.2.1, this.2.2.2.2.1,
    this.2.2.2.2.2.1, this.2.2.2.2.2.2⟩

theorem goodDigit_swapSep {c : Char} (h : goodDigit c) : swapSepChar c = c := by
  rw [swapSepChar, if_neg h.2.2.1, if_neg h.2.2.2.1]

theorem goodDigit_D {n : ℕ} : ∀ c ∈ (digitsLE n).map digitChar, goodDigit c := by
  intro c hc
  obtain ⟨d, hd, rfl⟩ := List.mem_map.mp hc
  exact goodDigit_digitChar (digitsLE_lt n d hd)


theorem goodDigit_T {fr : ℕ} (h : fr < 100) : ∀ c ∈ twoFracChars fr, goodDigit c := by
  intro c hc
  simp only [twoFracChars, List.mem_cons, List.not_mem_nil, or_false] at hc
  rcases hc with h1 | h1
  · exact h1 ▸ goodDigit_digitChar (by omega)
  · exact h1 ▸ goodDigit_digitChar (by omega)

theorem map_eq_self {α : Type} {f : α → α} :
    ∀ {l : List α}, (∀ a ∈ l, f a = a) → l.map f = l := by
  intro l h
  induction l with
  | nil => rfl
  | cons a t ih =>
    simp only [List.map_cons, h a (by simp), ih (fun x hx => h x (by simp [hx]))]

theorem filter_eq_self_of {α : Type} {p : α → Bool} {l : List α}
    (h : ∀ a ∈ l, p a = true) : l.filter p = l := by
  induction l with
  | nil => rfl
  | cons a t ih =>
    rw [List.filter_cons, if_pos (h a (by simp)), ih (fun x hx => h x (by simp [hx]))]

/-- Parsing the separator-swapped rendering: for a string made of an
optional `'-'`, a big-endian digit block interleaved with `'.'`
thousands separators, a `','` and a digit tail, `parse_comma_decimal`
reaches its second (replace-then-parse) branch and recovers the exact
value. -/
theorem parse_swapped (sgn M D T : List Char)
    (hsgn : sgn = [] ∨ sgn = ['-'])
    (hM : ∀ c ∈ M, goodDigit c ∨ c = '.')
    (hMf : M.filter (fun c => c ≠ '.') = D.reverse)
    (hD : ∀ c ∈ D, goodDigit c) (hT : ∀ c ∈ T, goodDigit c)
    (hDne : D ≠ []) (hTne : T ≠ []) :
    parseCommaDecimal ⟨sgn ++ M ++ ',' :: T⟩
      = (if sgn = [] then 1 else -1) *
          mkRat (ofCharsBE D.reverse * 10 ^ T.length + ofCharsBE T) (10 ^ T.length) := by
  have hsgnmem : ∀ c ∈ sgn, c = '-' := by
    rcases hsgn with h | h <;> subst h <;> intro c hc <;> simp_all
  set S : List Char := sgn ++ M ++ ',' :: T with hSdef
  have hcommaS : ',' ∈ S := by simp [hSdef]
  have hSne : S ≠ [] := fun h => by simp [h] at hcommaS
  have hnospace : ∀ c ∈ S, isSpaceChar c = false := by
    intro c hc
    simp only [hSdef, List.mem_append, List.mem_cons] at hc
    rcases hc with (h | h) | h | h
    · rw [hsgnmem c h]; rfl
    · rcases hM c h with hg | hg
      · exact hg.2.1
      · rw [hg]; rfl
    · rw [h]; rfl
    · exact (hT c h).2.1
  have hstrip : pyStripChars S = S := pyStripChars_eq_self hnospace
  have hnone : pyFloatOfChars S = none := pyFloatOfChars_none_of_comma hcommaS
  have hsgnfil : ∀ c ∈ sgn, (decide (c ≠ '.')) = true := by
    intro c hc
    rw [hsgnmem c hc]
    decide
  have hTfil : ∀ c ∈ T, (decide (c ≠ '.')) = true := by
    intro c hc
    simpa using (hT c hc).2.2.2.1
  have hu1 : S.filter (fun c => c ≠ '.') = sgn ++ D.reverse ++ ',' :: T := by
    rw [hSdef, List.filter_append, List.filter_append,
      filter_eq_self_of hsgnfil, hMf, List.filter_cons]
    rw [show (decide (',' ≠ '.')) = true from rfl]
    simp only [if_true]
    rw [filter_eq_self_of hTfil]
  have hDrev : ∀ c ∈ D.reverse, goodDigit c := fun c hc => hD c (List.mem_reverse.mp hc)
  have hu2 : (sgn ++ D.reverse ++ ',' :: T).map (fun c => if c = ',' then '.' else c)
      = sgn ++ D.reverse ++ '.' :: T := by
    rw [List.map_append, List.map_append, List.map_cons]
    rw [map_eq_self (fun c hc => by rw [hsgnmem c hc]; rfl)]
    rw [map_eq_self (fun c hc => by rw [if_neg (hDrev c hc).2.2.1])]
    rw [map_eq_self (fun c hc => by rw [if_neg (hT c hc).2.2.1])]
    rw [if_pos rfl]
  have hcore : pyFloatCore (D.reverse ++ '.' :: T)
      = some (mkRat (ofCharsBE D.reverse * 10 ^ T.length + ofCharsBE T) (10 ^ T.length)) :=
    pyFloatCore_digits (fun c hc => (hDrev c hc).1) (fun c hc => (hT c hc).1) hTne
  have hDrevne : D.reverse ≠ [] := by simpa using hDne
  have hsne : (⟨S⟩ : String) ≠ "" := fun h => hSne (congrArg String.data h)
  rw [parseCommaDecimal, if_neg hsne]
  show (match pyFloatOfChars (pyStripChars (⟨S⟩ : String).data) with
    | some v => v
    | none =>
      match pyFloatOfChars (((pyStripChars (⟨S⟩ : String).data).filter
          (fun c => c ≠ '.')).map (fun c => if c = ',' then '.' else c)) with
      | some v => v
      | none => (0 : ℚ)) = _
  simp only [show (⟨S⟩ : String).data = S from rfl, hstrip, hnone]
  rw [hu1, hu2]
  rcases hsgn with hs | hs
  · subst hs
    obtain ⟨c0, r0, hc0r0⟩ := List.exists_cons_of_ne_nil hDrevne
    have hc0 : goodDigit c0 := hDrev c0 (by rw [hc0r0]; simp)
    rw [List.nil_append, hc0r0, List.cons_append, pyFloatOfChars,
      if_neg hc0.2.2.2.2.2.1, if_neg hc0.2.2.2.2.2.2, ← List.cons_append, ← hc0r0,
      hcore]
    simp
  · subst hs
    rw [show (['-'] ++ D.reverse ++ '.' :: T) = '-' :: (D.reverse ++ '.' :: T) from rfl]
    rw [pyFloatOfChars, if_pos rfl, hcore]
    simp

/-- Parsing the output of the formatter recovers exactly the rendered
two-decimal value: `roundCents x / 100`. -/
theorem parseCommaDecimal_format (x : ℚ) :
    parseCommaDecimal (formatToCommaDecimal (some x)) = ((roundCents x : ℤ) : ℚ) / 100 := by
  set a : ℕ := (roundCents x).natAbs with ha
  set D : List Char := (digitsLE (a / 100)).map digitChar with hDdef
  set T : List Char := twoFracChars (a % 100) with hTdef
  set sgn : List Char := if x.num < 0 then ['-'] else [] with hsgndef
  set M : List Char := ((group3 D).map swapSepChar).reverse with hMdef
  have hD : ∀ c ∈ D, goodDigit c := goodDigit_D
  have hT : ∀ c ∈ T, goodDigit c := goodDigit_T (Nat.mod_lt _ (by norm_num))
  have hsgn2 : sgn = [] ∨ sgn = ['-'] := by
    rw [hsgndef]
    split_ifs <;> simp
  have hsgnmem : ∀ c ∈ sgn, c = '-' := by
    intro c hc
    rcases hsgn2 with h | h <;> rw [h] at hc
    · simp at hc
    · simpa using hc
  have hGprop : ∀ c ∈ group3 D, goodDigit c ∨ c = ',' := by
    intro c hc
    rcases group3_subset D c hc with h | h
    · exact Or.inl (hD c h)
    · exact Or.inr h
  have hM : ∀ c ∈ M, goodDigit c ∨ c = '.' := by
    intro c hc
    rw [hMdef, List.mem_reverse] at hc
    obtain ⟨c0, hc0, rfl⟩ := List.mem_map.mp hc
    rcases hGprop c0 hc0 with hg | hg
    · rw [goodDigit_swapSep hg]; exact Or.inl hg
    · rw [hg]; right; rfl
  have hfilterG : ((group3 D).map swapSepChar).filter (fun c => c ≠ '.') = D := by
    rw [List.filter_map]
    have hcg : ∀ c ∈ group3 D,
        ((fun c => decide (c ≠ '.')) ∘ swapSepChar) c = decide (c ≠ ',') := by
      intro c hc
      rcases hGprop c hc with hg | hg
      · show decide (swapSepChar c ≠ '.') = decide (c ≠ ',')
        rw [goodDigit_swapSep hg]
        simp [hg.2.2.1, hg.2.2.2.1]
      · rw [hg]; rfl
    rw [List.filter_congr hcg, group3_filter_comma D (fun c hc => (hD c hc).2.2.1)]
    exact map_eq_self (fun c hc => goodDigit_swapSep (hD c hc))
  have hMf : M.filter (fun c => c ≠ '.') = D.reverse := by
    rw [hMdef, List.filter_reverse, hfilterG]
  have hDne : D ≠ [] := by
    rw [hDdef]
    simp [digitsLE_ne_nil]
  have hTne : T ≠ [] := by rw [hTdef]; simp [twoFracChars]
  have hF : pyFormatFixed2 x = sgn ++ (group3 D).reverse ++ '.' :: T := rfl
  have hnoX : ∀ c ∈ pyFormatFixed2 x, c ≠ 'X' := by
    intro c hc
    rw [hF] at hc
    simp only [List.mem_append, List.mem_cons, List.mem_reverse] at hc
    rcases hc with (h | h) | h | h
    · rw [hsgnmem c h]; decide
    · rcases hGprop c h with hg | hg
      · exact hg.2.2.2.2.1
      · rw [hg]; decide
    · rw [h]; decide
    · exact (hT c h).2.2.2.2.1
  have hS : swapSepChars (pyFormatFixed2 x) = sgn ++ M ++ ',' :: T := by
    rw [swapSepChars_eq_map hnoX, hF]
    rw [List.map_append, List.map_append, List.map_cons, List.map_reverse]
    rw [map_eq_self (fun c hc => by rw [hsgnmem c hc]; rfl)]
    rw [map_eq_self (fun c hc => goodDigit_swapSep (hT c hc))]
    rw [show swapSepChar '.' = ',' from rfl]
  have hmk : formatToCommaDecimal (some x) = ⟨sgn ++ M ++ ',' :: T⟩ := by
    show (⟨swapSepChars (pyFormatFixed2 x)⟩ : String) = _
    rw [hS]
  rw [hmk, parse_swapped sgn M D T hsgn2 hM hMf hD hT hDne hTne]
  have hofD : ofCharsBE D.reverse = a / 100 := by
    rw [hDdef, ofCharsBE_rev_map _ (digitsLE_lt _), ofLE_digitsLE]
  have hofT : ofCharsBE T = a % 100 := by
    rw [hTdef, ofCharsBE_twoFrac (Nat.mod_lt _ (by norm_num))]
  have hTlen : T.length = 2 := by rw [hTdef]; rfl
  have hval : mkRat (ofCharsBE D.reverse * 10 ^ T.length + ofCharsBE T) (10 ^ T.length)
      = ((a : ℕ) : ℚ) / 100 := by
    rw [hofD, hofT, hTlen]
    rw [show (10 : ℕ) ^ 2 = 100 from rfl]
    rw [Rat.mkRat_eq_divInt, Rat.divInt_eq_div]
    have hsplit : ((a : ℕ) : ℚ) = 100 * ((a / 100 : ℕ) : ℚ) + ((a % 100 : ℕ) : ℚ) := by
      exact_mod_cast (Nat.div_add_mod a 100).symm
    rw [hsplit]
    push_cast
    ring_nf
    norm_cast
  rw [hval]
  rcases lt_or_ge x.num 0 with hneg | hpos
  · have hsval : sgn = ['-'] := by rw [hsgndef, if_pos hneg]
    rw [hsval, if_neg (by simp)]
    have hxneg : x < 0 := by
      rcases lt_or_ge x 0 with h1 | h1
      · exact h1
      · exact absurd (Rat.num_nonneg.mpr h1) (not_le.mpr hneg)
    have hrc : roundCents x ≤ 0 := roundCents_nonpos hxneg
    have haq : ((a : ℕ) : ℚ) = -((roundCents x : ℤ) : ℚ) := by
      rw [ha, Int.cast_natAbs, abs_of_nonpos hrc]
      push_cast
      ring
    rw [haq]
    ring
  · have hsval : sgn = [] := by rw [hsgndef, if_neg (not_lt.mpr hpos)]
    rw [hsval, if_pos rfl]
    have hrc : 0 ≤ roundCents x := roundCents_nonneg (Rat.num_nonneg.mp hpos)
    have haq : ((a : ℕ) : ℚ) = ((roundCents x : ℤ) : ℚ) := by
      rw [ha, Int.cast_natAbs, abs_of_nonneg hrc]
    rw [haq]
    ring

/-! ### `src/processors/rfm.py` — data model

Tables are lists of records.  Timestamps are carried at day resolution:
`PDate` stores the calendar year (used by the `min_year` filter) and an
absolute day number (used by every date difference).  `Option` cells
model NaN/None.  `OrderRow.dateParsed` records whether `_clean_data`
has already overwritten the raw `Purchase Date` string column with
parsed datetimes (an in-place effect on the caller's DataFrame).
-/

structure PDate where
  year : ℤ
  absDay : ℤ
deriving DecidableEq

/-- One row of the `orders` DataFrame as handed to `RFMProcessor.process`
(columns mapped by `MagentoClient._process_order`). -/
structure OrderRow where
  id : String
  customerEmail : String
  purchaseDate : Option PDate
  dateParsed : Bool
  grandTotal : Option ℚ
  status : String
  paymentMethod : String
deriving DecidableEq

/-- One row of the raw `customers` DataFrame (Magento API fields). -/
structure CustomerRow where
  id : String
  email : String
  firstname : Option String
  lastname : Option String
deriving DecidableEq

/-- One row of the `items` DataFrame (`MagentoClient._process_order_items`). -/
structure ItemRow where
  orderId : String
  customerEmail : Option String
  sku : String
  qtyOrdered : ℚ
  rowTotal : ℚ
deriving DecidableEq

/-- One row of the `catalog` DataFrame. -/
structure CatalogRow where
  sku : String
  productName : Option String
  categories : Option String
  brand : Option String
deriving DecidableEq

/-- The customer columns surviving `_extract_customer_fields` /
`_clean_data` that feed the final merge (presentation-only columns such
as phone and postal code are irrelevant to the verified claims and
omitted). -/
structure CleanCustomer where
  id : String
  email : String
  name : String
deriving DecidableEq

/-- An order row after `_clean_data`: e-mail lower-cased, date parsed,
grand total numeric with NaN filled by `0`, year filter passed. -/
structure CleanOrder where
  id : String
  email : String
  date : PDate
  total : ℚ
deriving DecidableEq

/-! ### `src/core/client.py` — the order search-criteria filter

`fetch_orders` (lines 345–378) asks the back office only for orders with
`created_at ≥ min_year-01-01` and `status = status` (default
`OrderStatus.PROCESSING`, i.e. `"processing"`).  The orders DataFrame
the processor receives is therefore this filter of the raw order set. -/

def fetchOrdersFilter (minYear : ℤ) (status : String) (raw : List OrderRow) : List OrderRow :=
  raw.filter (fun o => o.status == status &&
    (match o.purchaseDate with
     | some d => decide (minYear ≤ d.year)
     | none => false))

/-- The composed eligibility test of the spec: status `"processing"`
(applied by the API search criteria) and purchase year at least
`min_year` (applied by the search criteria and re-applied by
`_clean_data`). -/
def eligibleOrder (minYear : ℤ) (o : OrderRow) : Bool :=
  o.status == "processing" &&
    (match o.purchaseDate with
     | some d => decide (minYear ≤ d.year)
     | none => false)

/-! ### `RFMProcessor._clean_data` / `_extract_customer_fields` -/

/-- Display name: `(firstname.fillna('') + ' ' + lastname.fillna('')).str.strip()`
with the empty result replaced by `'Sin Nombre'`. -/
def mkName (f l : Option String) : String :=
  let s := pyStrip ((f.getD "") ++ " " ++ (l.getD ""))
  if s = "" then "Sin Nombre" else s

def cleanCustomers (customers : List CustomerRow) : List CleanCustomer :=
  customers.map (fun c =>
    { id := c.id, email := pyLowerStr c.email, name := mkName c.firstname c.lastname })

/-- `_clean_data` on orders: lower-case the e-mail, keep the parsed
date (`errors='coerce'` discards unparseable rows at the year filter,
since NaN years fail the `≥ min_year` comparison), fill non-numeric
grand totals with `0`, and keep only rows with purchase year at least
`min_year`. -/
def cleanOrders (minYear : ℤ) (orders : List OrderRow) : List CleanOrder :=
  orders.filterMap (fun o =>
    match o.purchaseDate with
    | some d =>
      if minYear ≤ d.year then
        some { id := o.id, email := pyLowerStr o.customerEmail, date := d,
               total := o.grandTotal.getD 0 }
      else none
    | none => none)

/-! ### `RFMProcessor._calculate_rfm_metrics` -/

def listMaxD {α : Type} [LinearOrder α] (dflt : α) : List α → α
  | [] => dflt
  | x :: xs => xs.foldl max x

def listMinD {α : Type} [LinearOrder α] (dflt : α) : List α → α
  | [] => dflt
  | x :: xs => xs.foldl min x

/-- One row of the RFM-metrics frame (per customer e-mail); dates are
carried as absolute day numbers.  `today` is the `current_date`
captured once in `RFMProcessor.__init__`. -/
structure RfmRow where
  email : String
  frecuencia : ℕ
  ltv : ℚ
  gastoPromedio : ℚ
  gastoMaximo : ℚ
  gastoMinimo : ℚ
  primeraCompraDia : ℤ
  recenciaDia : ℤ
  recenciaDias : ℤ
  diasComoCliente : ℤ
  ticketPromedioMensual : ℚ
deriving DecidableEq

def rfmRow (today : ℤ) (os : List CleanOrder) (e : String) : RfmRow :=
  let g := os.filter (fun o => o.email == e)
  let days := g.map (fun o => o.date.absDay)
  let totals := g.map (fun o => o.total)
  let primera := listMinD 0 days
  let dias0 := today - primera
  let dias := if dias0 = 0 then 1 else dias0
  { email := e
  , frecuencia := g.length
  , ltv := totals.sum
  , gastoPromedio := totals.sum / (g.length : ℚ)
  , gastoMaximo := listMaxD 0 totals
  , gastoMinimo := listMinD 0 totals
  , primeraCompraDia := primera
  , recenciaDia := listMaxD 0 days
  , recenciaDias := today - listMaxD 0 days
  , diasComoCliente := dias
  , ticketPromedioMensual := totals.sum / ((dias : ℚ) / (30.416 : ℚ)) }

/-- `groupby('Customer Email').agg(...)`: one row per distinct e-mail,
keys in ascending order. -/
def calculateRfmMetrics (today : ℤ) (os : List CleanOrder) : List RfmRow :=
  (groupKeys (os.map (fun o => o.email))).map (rfmRow today os)

/-! ### `RFMProcessor._calculate_additional_kpis` -/

def pairGaps : List ℤ → List ℤ
  | a :: b :: t => (b - a) :: pairGaps (b :: t)
  | _ => []

/-- `calculate_avg_time_between_purchases`: sort the purchase dates; a
single (or empty) group yields `None`, otherwise the mean of the
consecutive day gaps. -/
def avgGapDays (days : List ℤ) : Option ℚ :=
  let ds := List.insertionSort (· ≤ ·) days
  if ds.length ≤ 1 then none
  else some ((((pairGaps ds).map (fun z => (z : ℚ))).sum) / ((pairGaps ds).length : ℚ))

/-- The KPI columns relevant to the claims (`Ultimo_Trimestre_Compra`
and `Dia_Semana_Max_Frec` are presentation strings and omitted). -/
structure KpiRow where
  email : String
  tpec : Option ℚ
deriving DecidableEq

def kpiRow (os : List CleanOrder) (e : String) : KpiRow :=
  { email := e
  , tpec := avgGapDays ((os.filter (fun o => o.email == e)).map (fun o => o.date.absDay)) }

def calculateAdditionalKpis (os : List CleanOrder) : List KpiRow :=
  (groupKeys (os.map (fun o => o.email))).map (kpiRow os)

/-! ### `RFMProcessor._analyze_preferences`

The "preferred X" pattern (category, brand, favourite product) is, per
customer: group the `(value, quantity)` item rows by value, sum the
quantities, and take `idxmax` of the per-value sums.  After
`groupby([...]).sum().reset_index()` the aggregated frame is sorted by
its group keys, so `idxmax` — first row attaining the maximum — picks
the first maximiser in ascending key order.
-/

def qtySum (pairs : List (String × ℚ)) (k : String) : ℚ :=
  ((pairs.filter (fun p => p.1 == k)).map (fun p => p.2)).sum

/-- `Series.idxmax`: the first entry attaining the maximum of `f`. -/
def firstArgmax (f : String → ℚ) : List String → Option String
  | [] => none
  | k :: ks => some (ks.foldl (fun best k2 => if f k2 > f best then k2 else best) k)

/-- The value selected by the code's `idxmax`-over-sorted-groups
pattern for one customer's `(value, qty)` item rows. -/
def preferredValue (pairs : List (String × ℚ)) : Option String :=
  firstArgmax (qtySum pairs) (groupKeys (pairs.map (fun p => p.1)))

/-- Deduplication keeping first occurrences, in order of first
appearance. -/
def uniqFirstOcc : List String → List String
  | [] => []
  | a :: t => a :: (uniqFirstOcc t).filter (fun b => b ≠ a)

/-- Modelled from the spec: the "first-occurrence rule" tie-break of
§4.4 — among values tied for the maximal summed quantity, select the
one whose first item row comes earliest in the original row order.
(Stated for comparison with `preferredValue`; it is not the code's
behaviour.) -/
def preferredValueFirstOccurrence (pairs : List (String × ℚ)) : Option String :=
  firstArgmax (qtySum pairs) (uniqFirstOcc (pairs.map (fun p => p.1)))

/-- The item rows as they enter the per-customer groupbys: rows whose
`customer_email` is present, with the e-mail lower-cased and the SKU
normalized in place (`(email, sku, qty)`). -/
def itemsCleaned (items : List ItemRow) : List (String × String × ℚ) :=
  items.filterMap (fun it =>
    it.customerEmail.map (fun e => (pyLowerStr e, skuJoinNormalize it.sku, it.qtyOrdered)))

/-- `Producto_Favorito_SKU` for one customer. -/
def favoriteSku (items : List ItemRow) (e : String) : Option String :=
  preferredValue (((itemsCleaned items).filter (fun r => r.1 == e)).map
    (fun r => (r.2.1, r.2.2)))

/-- The preference frame restricted to the columns that control row
multiplicity and the claims: one row per item e-mail from the grouped
aggregations, then the favourite-product left join against the
(in-place normalized) catalog — a join that duplicates rows when
several catalog entries share a normalized SKU.  The second component
is `Producto_Favorito_Nombre`. -/
def prefRowsFor (items : List ItemRow) (catalog : List CatalogRow) (e : String) :
    List (String × Option String) :=
  match favoriteSku items e with
  | none => [(e, none)]
  | some fs =>
    if (catalog.filter (fun c => skuJoinNormalize c.sku == fs)).isEmpty then [(e, none)]
    else (catalog.filter (fun c => skuJoinNormalize c.sku == fs)).map
      (fun m => (e, m.productName))

def prefRows (items : List ItemRow) (catalog : List CatalogRow) :
    List (String × Option String) :=
  (groupKeys ((itemsCleaned items).map (fun r => r.1))).flatMap (prefRowsFor items catalog)

/-! ### `RFMProcessor._merge_all_data` and the pipeline output -/

/-- The output columns needed by the claims (`_format_output` only
renders/renames columns row-by-row and fixes the column order, so row
identity and these values are unchanged by it). -/
structure FinalRow where
  email : String
  name : String
  custId : String
  frecuencia : ℕ
  ltv : ℚ
  recenciaDias : ℤ
  primeraCompraDia : ℤ
  diasComoCliente : ℤ
  tpec : Option ℚ
  favProductName : Option String
deriving DecidableEq

/-- `_merge_all_data`: RFM rows left-joined with the KPI frame (keyed,
one row per e-mail — modelled as a lookup) and with the preference
frame (left join preserving right-side multiplicity), then the cleaned
customers inner-joined on e-mail; pandas `merge(how='inner')` keeps the
left (customers) key order. -/
def rfmJoinPrefs (rfm : List RfmRow) (prefs : List (String × Option String)) :
    List (RfmRow × Option String) :=
  rfm.flatMap (fun r =>
    if (prefs.filter (fun p => p.1 == r.email)).isEmpty then [(r, (none : Option String))]
    else (prefs.filter (fun p => p.1 == r.email)).map (fun p => (r, p.2)))

def mkFinal (kpis : List KpiRow) (c : CleanCustomer) (j : RfmRow × Option String) :
    FinalRow :=
  { email := j.1.email
  , name := c.name
  , custId := c.id
  , frecuencia := j.1.frecuencia
  , ltv := j.1.ltv
  , recenciaDias := j.1.recenciaDias
  , primeraCompraDia := j.1.primeraCompraDia
  , diasComoCliente := j.1.diasComoCliente
  , tpec := (kpis.find? (fun k => k.email == j.1.email)).bind (fun k => k.tpec)
  , favProductName := j.2 }

def mergeAllData (cs : List CleanCustomer) (rfm : List RfmRow) (kpis : List KpiRow)
    (prefs : List (String × Option String)) : List FinalRow :=
  cs.flatMap (fun c =>
    ((rfmJoinPrefs rfm prefs).filter (fun j => j.1.email == c.email)).map (mkFinal kpis c))

/-- `RFMProcessor.process` steps 1–5 on already-fetched inputs. -/
def processOutput (minYear today : ℤ) (customers : List CustomerRow)
    (orders : List OrderRow) (items : List ItemRow) (catalog : List CatalogRow) :
    List FinalRow :=
  let os := cleanOrders minYear orders
  mergeAllData (cleanCustomers customers) (calculateRfmMetrics today os)
    (calculateAdditionalKpis os) (prefRows items catalog)

/-! ### `src/processors/scoring.py` -/

/-- `ScoringThresholds` (scoring.py lines 35–46). -/
structure ScoringThresholds where
  highValue : ℚ
  mediumValue : ℚ
  highFrequency : ℤ
  mediumFrequency : ℤ
  recentDays : ℚ
  mediumDays : ℚ
  highCartValue : ℚ
  mediumCartValue : ℚ
deriving DecidableEq

/-- The dataclass defaults. -/
def defaultThresholds : ScoringThresholds :=
  { highValue := 1000000, mediumValue := 300000, highFrequency := 5,
    mediumFrequency := 3, recentDays := 7, mediumDays := 30,
    highCartValue := 300000, mediumCartValue := 100000 }

/-- Python's `row.get(key, dflt) or dflt` on a numeric cell: an absent
(or `None`) cell gives the default — and so does a present value of
`0`, because `0` is falsy. -/
def pyOrQ (x : Option ℚ) (dflt : ℚ) : ℚ :=
  match x with
  | none => dflt
  | some v => if v = 0 then dflt else v

/-- Python `int()` on a float: truncation toward zero. -/
def pyInt (q : ℚ) : ℤ := if q < 0 then ⌈q⌉ else ⌊q⌋

/-- The fields `DefaultScoringStrategy.calculate` reads from its row. -/
structure ScoreRow where
  ltv : Option ℚ
  frecuencia : Option ℚ
  recencia : Option ℚ
  subtotal : Option ℚ
deriving DecidableEq

/-- Embedding of `DefaultScoringStrategy.calculate` (scoring.py lines
66–111): `LTV_Gasto_Total` and `Subtotal` default to `0`,
`Recencia_Dias` defaults to `9999` (each through the falsy-catching
`or`), `Frecuencia` is truncated by `int()`; four if-chains add the
component points. -/
def scoreCalculate (t : ScoringThresholds) (row : ScoreRow) : ℤ :=
  let ltv := pyOrQ row.ltv 0
  let frec := pyInt (pyOrQ row.frecuencia 0)
  let recencia := pyOrQ row.recencia 9999
  let subtotal := pyOrQ row.subtotal 0
  (if ltv > t.highValue then 30
   else if ltv > t.mediumValue then 20
   else if ltv > 0 then 10 else 0)
  + (if frec ≥ t.highFrequency then 30
     else if frec ≥ t.mediumFrequency then 20
     else if frec ≥ 1 then 10 else 0)
  + (if recencia ≤ t.recentDays then 20
     else if recencia ≤ t.mediumDays then 10 else 0)
  + (if subtotal ≥ t.highCartValue then 20
     else if subtotal ≥ t.mediumCartValue then 10 else 0)

/-- Modelled from the spec (§4.6 scoring table and the C3 sentence):
the four components as the specification words them, with the recency
component read directly off the row's `Recencia_Dias` value.  Stated
for comparison with `scoreCalculate`. -/
def specIntentionScore (row : ScoreRow) : ℤ :=
  (if row.ltv.getD 0 > 1000000 then 30
   else if row.ltv.getD 0 > 300000 then 20
   else if row.ltv.getD 0 > 0 then 10 else 0)
  + (if row.frecuencia.getD 0 ≥ 5 then 30
     else if row.frecuencia.getD 0 ≥ 3 then 20
     else if row.frecuencia.getD 0 ≥ 1 then 10 else 0)
  + (match row.recencia with
     | some r => if r ≤ 7 then 20 else if r ≤ 30 then 10 else 0
     | none => 0)
  + (if row.subtotal.getD 0 ≥ 300000 then 20
     else if row.subtotal.getD 0 ≥ 100000 then 10 else 0)

/-- The claim as amended: identical to the spec's component sum except
that the recency component is computed on the effective recency value
`pyOrQ row.recencia 9999` — a recency of exactly `0` days (or an
absent one) is treated as `9999` by the falsy-catching `or`. -/
def amendedIntentionScore (row : ScoreRow) : ℤ :=
  (if row.ltv.getD 0 > 1000000 then 30
   else if row.ltv.getD 0 > 300000 then 20
   else if row.ltv.getD 0 > 0 then 10 else 0)
  + (if row.frecuencia.getD 0 ≥ 5 then 30
     else if row.frecuencia.getD 0 ≥ 3 then 20
     else if row.frecuencia.getD 0 ≥ 1 then 10 else 0)
  + (if pyOrQ row.recencia 9999 ≤ 7 then 20
     else if pyOrQ row.recencia 9999 ≤ 30 then 10 else 0)
  + (if row.subtotal.getD 0 ≥ 300000 then 20
     else if row.subtotal.getD 0 ≥ 100000 then 10 else 0)

/-- `MarketingScorer` class constants. -/
def VIP_LTV_THRESHOLD : ℚ := 1000000

def VIP_FREQUENCY_THRESHOLD : ℤ := 5

def RECURRENT_THRESHOLD : ℤ := 2

/-- The fields `MarketingScorer.classify_customers` reads. -/
structure ClassifyRow where
  tieneFacturaA : Option String
  ltv : Option ℚ
  frecuencia : Option ℚ
deriving DecidableEq

/-- The invoice-A test of `get_customer_type`:
`str(row.get("Tiene_Factura_A", "No")).strip().lower()` equal to
`"sí"` or `"si"`. -/
def flagFacturaA (s : Option String) : Bool :=
  pyLowerStr (pyStrip (s.getD "No")) == "sí" ||
    pyLowerStr (pyStrip (s.getD "No")) == "si"

/-- Embedding of `MarketingScorer.classify_customers.get_customer_type`
(scoring.py lines 237–254). -/
def getCustomerType (row : ClassifyRow) : String :=
  if flagFacturaA row.tieneFacturaA then "VIP"
  else
    if pyOrQ row.ltv 0 ≥ VIP_LTV_THRESHOLD ∨
        pyInt (pyOrQ row.frecuencia 0) ≥ VIP_FREQUENCY_THRESHOLD then "VIP"
    else if pyInt (pyOrQ row.frecuencia 0) ≥ RECURRENT_THRESHOLD then "Recurrente"
    else "Nuevo"

/-! ### `RFMProcessor.process` — exception translation
(`src/processors/rfm.py` lines 101–130, `src/core/exceptions.py` lines
123–144)

The six stage calls may raise any Python exception; a raising stage is
modelled as a function into `Except String`.  The `try/except` of
`process` maps any stage failure to one `DataProcessingError` built
with `operation="process"`. -/

structure DataProcessingError where
  message : String
  operation : Option String
deriving DecidableEq

/-- The `except Exception as e: raise DataProcessingError(f"RFM
processing failed: {e}", operation="process")` wrapper. -/
def processTry {β : Type} (run : Except String β) : Except DataProcessingError β :=
  match run with
  | .ok v => .ok v
  | .error e => .error { message := "RFM processing failed: " ++ e
                       , operation := some "process" }

/-- The stage sequence of `process`: clean, RFM metrics, KPIs,
preferences, merge, format — each stage runs only if all earlier
stages succeeded. -/
def runPipeline {α₁ α₂ α₃ α₄ α₅ α₆ α₇ : Type}
    (cleanData : α₁ → Except String α₂)
    (calcRfm : α₂ → Except String α₃)
    (calcKpis : α₂ → Except String α₄)
    (analyzePrefs : α₂ → Except String α₅)
    (mergeAll : α₂ × α₃ × α₄ × α₅ → Except String α₆)
    (formatOutput : α₆ → Except String α₇)
    (x : α₁) : Except String α₇ := do
  let s ← cleanData x
  let r ← calcRfm s
  let k ← calcKpis s
  let p ← analyzePrefs s
  let m ← mergeAll (s, r, k, p)
  formatOutput m

/-- `RFMProcessor.process`: the staged pipeline inside the
`try/except` translation. -/
def processModel {α₁ α₂ α₃ α₄ α₅ α₆ α₇ : Type}
    (cleanData : α₁ → Except String α₂)
    (calcRfm : α₂ → Except String α₃)
    (calcKpis : α₂ → Except String α₄)
    (analyzePrefs : α₂ → Except String α₅)
    (mergeAll : α₂ × α₃ × α₄ × α₅ → Except String α₆)
    (formatOutput : α₆ → Except String α₇)
    (x : α₁) : Except DataProcessingError α₇ :=
  processTry (runPipeline cleanData calcRfm calcKpis analyzePrefs mergeAll formatOutput x)

/-! ### In-place effects of `process` on its DataFrame arguments

`_clean_data` assigns to `orders['Customer Email']`,
`orders['Purchase Date']` and `orders['Grand Total (Purchased)']` on
the caller's object before rebinding `orders` to the filtered copy;
`_analyze_preferences` assigns to `items['sku']` and `catalog['sku']`
(lines 342–343) before taking copies; `customers` is rebound to
`df.copy()` inside `_extract_customer_fields` before any write. -/

/-- Per-row effect on the caller's `orders` DataFrame: e-mail column
lower-cased, date column replaced by its parsed value (`dateParsed`),
grand-total column coerced to numeric with NaN filled by `0`; `ID`,
`Status` and `Payment_Method` untouched. -/
def ordersBufferEffect (o : OrderRow) : OrderRow :=
  { o with customerEmail := pyLowerStr o.customerEmail
         , dateParsed := true
         , grandTotal := some (o.grandTotal.getD 0) }

def itemsBufferEffect (it : ItemRow) : ItemRow :=
  { it with sku := skuJoinNormalize it.sku }

def catalogBufferEffect (c : CatalogRow) : CatalogRow :=
  { c with sku := skuJoinNormalize c.sku }

/-- The state of the four argument buffers after `process` returns. -/
def processBufferEffects (customers : List CustomerRow) (orders : List OrderRow)
    (items : List ItemRow) (catalog : List CatalogRow) :
    List CustomerRow × List OrderRow × List ItemRow × List CatalogRow :=
  (customers, orders.map ordersBufferEffect, items.map itemsBufferEffect,
    catalog.map catalogBufferEffect)

/-! ### Facts about the Python numeric coercions -/

theorem pyOrQ_zero (x : Option ℚ) : pyOrQ x 0 = x.getD 0 := by
  cases x with
  | none => rfl
  | some v =>
    by_cases hv : v = 0
    · simp [pyOrQ, hv]
    · simp [pyOrQ, hv]

theorem pyInt_intCast (z : ℤ) : pyInt ((z : ℚ)) = z := by
  rw [pyInt]
  split_ifs with h
  · exact Int.ceil_intCast z
  · exact Int.floor_intCast z

theorem pyInt_ge_iff (q : ℚ) (k : ℤ) (hk : 1 ≤ k) : (k ≤ pyInt q) ↔ ((k : ℚ) ≤ q) := by
  rw [pyInt]
  split_ifs with h
  · have hc : ⌈q⌉ ≤ 0 := Int.ceil_le.mpr (by exact_mod_cast le_of_lt h)
    constructor
    · intro hle; omega
    · intro hle
      have : (1 : ℚ) ≤ q := le_trans (by exact_mod_cast hk) hle
      linarith
  · exact Int.le_floor

/-- C3 (counterexample): at a row whose `Recencia_Dias` is exactly `0`
— a purchase on the reference day — the code's score differs from the
claimed component sum: the falsy-catching `or` replaces the recency
value `0` by `9999`, so the code awards 0 recency points where the
claim's table (`≤ 7 → 20`) awards 20.  Here the code totals 30 and the
claim's sum totals 50. -/
theorem c3_counterexample :
    scoreCalculate defaultThresholds
        { ltv := some 500000, frecuencia := some 2, recencia := some 0, subtotal := none }
      ≠ specIntentionScore
        { ltv := some 500000, frecuencia := some 2, recencia := some 0, subtotal := none } := by
  have h2 : pyInt ((2 : ℚ)) = 2 := by
    rw [show ((2 : ℚ)) = ((2 : ℤ) : ℚ) by norm_num, pyInt_intCast]
  simp only [scoreCalculate, specIntentionScore, defaultThresholds, pyOrQ, Option.getD]
  norm_num [h2]

/-- C3 (amended): the intention score is the sum of the four component
scores of the claim, except that the recency component is evaluated on
the effective recency (`0`/absent ↦ `9999`); consequently it always
lies between 0 and 100. -/
theorem c3_intention_score (row : ScoreRow) :
    scoreCalculate defaultThresholds row = amendedIntentionScore row ∧
      0 ≤ scoreCalculate defaultThresholds row ∧
      scoreCalculate defaultThresholds row ≤ 100 := by
  obtain ⟨l, f, r, s⟩ := row
  constructor
  · simp only [scoreCalculate, amendedIntentionScore, defaultThresholds, pyOrQ_zero,
      ge_iff_le]
    have h5 := pyInt_ge_iff (Option.getD f 0) 5 (by norm_num)
    have h3 := pyInt_ge_iff (Option.getD f 0) 3 (by norm_num)
    have h1 := pyInt_ge_iff (Option.getD f 0) 1 (by norm_num)
    simp only [h5, h3, h1]
    norm_num
  · simp only [scoreCalculate]
    split_ifs <;> norm_num

/-- C5: `Tipo_Cliente` is `"VIP"` exactly when the preferential-invoice
flag is set or lifetime value is at least 1,000,000 or frequency is at
least 5; otherwise `"Recurrente"` exactly when frequency is at least 2;
otherwise `"Nuevo"`.  In particular the invoice flag alone forces
`"VIP"`. -/
theorem c5_customer_type (row : ClassifyRow) :
    (getCustomerType row = "VIP" ↔
      (flagFacturaA row.tieneFacturaA = true ∨
        row.ltv.getD 0 ≥ 1000000 ∨ row.frecuencia.getD 0 ≥ (5 : ℚ))) ∧
    (getCustomerType row = "Recurrente" ↔
      (flagFacturaA row.tieneFacturaA = false ∧ row.ltv.getD 0 < 1000000 ∧
        row.frecuencia.getD 0 < (5 : ℚ) ∧ row.frecuencia.getD 0 ≥ (2 : ℚ))) ∧
    (getCustomerType row = "Nuevo" ↔
      (flagFacturaA row.tieneFacturaA = false ∧ row.ltv.getD 0 < 1000000 ∧
        row.frecuencia.getD 0 < (2 : ℚ))) ∧
    (flagFacturaA row.tieneFacturaA = true → getCustomerType row = "VIP") := by
  obtain ⟨tf, l, f⟩ := row
  have hVR : ("VIP" : String) ≠ "Recurrente" := by decide
  have hVN : ("VIP" : String) ≠ "Nuevo" := by decide
  have hRN : ("Recurrente" : String) ≠ "Nuevo" := by decide
  have hRV : ("Recurrente" : String) ≠ "VIP" := by decide
  have hNV : ("Nuevo" : String) ≠ "VIP" := by decide
  have hNR : ("Nuevo" : String) ≠ "Recurrente" := by decide
  have h5 := pyInt_ge_iff (pyOrQ f 0) 5 (by norm_num)
  have h2 := pyInt_ge_iff (pyOrQ f 0) 2 (by norm_num)
  have hfq : pyOrQ f 0 = f.getD 0 := pyOrQ_zero f
  have hlq : pyOrQ l 0 = l.getD 0 := pyOrQ_zero l
  cases hflag : flagFacturaA tf with
  | true =>
    simp only [getCustomerType, hflag, if_true]
    refine ⟨?_, ?_, ?_, ?_⟩
    · simp
    · simp [hVR]
    · simp [hVN]
    · simp
  | false =>
    simp only [getCustomerType, hflag, Bool.false_eq_true, if_false]
    by_cases hvip : pyOrQ l 0 ≥ VIP_LTV_THRESHOLD ∨ pyInt (pyOrQ f 0) ≥ VIP_FREQUENCY_THRESHOLD
    · rw [if_pos hvip]
      have hvip2 : l.getD 0 ≥ (1000000 : ℚ) ∨ f.getD 0 ≥ (5 : ℚ) := by
        rcases hvip with h | h
        · left; rw [← hlq]; exact_mod_cast h
        · right; rw [← hfq]; exact_mod_cast (h5.mp h)
      refine ⟨by simp [hvip2], ?_, ?_, by simp⟩
      · simp only [hVR, false_iff]
        rintro ⟨-, hl2, hf2, -⟩
        rcases hvip2 with h | h
        · exact absurd h (not_le.mpr hl2)
        · exact absurd h (not_le.mpr hf2)
      · simp only [hVN, false_iff]
        rintro ⟨-, hl2, hf2⟩
        rcases hvip2 with h | h
        · exact absurd h (not_le.mpr hl2)
        · exact absurd h (not_le.mpr (lt_trans hf2 (by norm_num)))
    · rw [if_neg hvip]
      push_neg at hvip
      obtain ⟨hl2, hf2⟩ := hvip
      have hl3 : l.getD 0 < (1000000 : ℚ) := by
        rw [← hlq]
        exact_mod_cast lt_of_not_le (fun hc => absurd hc (not_le.mpr hl2))
      have hf3 : f.getD 0 < (5 : ℚ) := by
        rw [← hfq]
        by_contra hc
        exact absurd (h5.mpr (by exact_mod_cast not_lt.mp hc)) (not_le.mpr hf2)
      by_cases hrec : pyInt (pyOrQ f 0) ≥ RECURRENT_THRESHOLD
      · rw [if_pos hrec]
        have hf4 : f.getD 0 ≥ (2 : ℚ) := by
          rw [← hfq]
          exact_mod_cast h2.mp hrec
        refine ⟨?_, ?_, ?_, ?_⟩
        · simp only [hRV, false_iff]
          rintro (hfl | h | h)
          · exact hfl.elim
          · exact absurd h (not_le.mpr hl3)
          · exact absurd h (not_le.mpr hf3)
        · simp [hflag, hl3, hf3, hf4]
        · simp only [hRN, false_iff]
          rintro ⟨-, -, h⟩
          exact absurd hf4 (not_le.mpr h)
        · intro hfl; exact hfl.elim
      · rw [if_neg hrec]
        have hf4 : f.getD 0 < (2 : ℚ) := by
          rw [← hfq]
          by_contra hc
          exact absurd (h2.mpr (by exact_mod_cast not_lt.mp hc)) hrec
        refine ⟨?_, ?_, ?_, ?_⟩
        · simp only [hNV, false_iff]
          rintro (hfl | h | h)
          · exact hfl.elim
          · exact absurd h (not_le.mpr hl3)
          · exact absurd h (not_le.mpr hf3)
        · simp only [hNR, false_iff]
          rintro ⟨-, -, -, h⟩
          exact absurd h (not_le.mpr hf4)
        · simp [hflag, hl3, hf4]
        · intro hfl; exact hfl.elim

/-- C5 (witness): a row whose invoice flag is `"Sí"` but whose lifetime
value and frequency are zero is still classified `"VIP"`. -/
theorem c5_witness :
    getCustomerType { tieneFacturaA := some "Sí", ltv := some 0, frecuencia := some 0 }
      = "VIP" :=
  (c5_customer_type { tieneFacturaA := some "Sí", ltv := some 0, frecuencia := some 0 }).2.2.2
    (by decide)

/-- C7 (counterexample): the normalization applied on both sides of the
item/catalog join does not leave non-numeric SKUs unchanged — the
unconditional `str.zfill(5)` zero-pads `"AB"` (no whitespace to remove)
to `"000AB"`, while `helpers.normalize_sku` leaves it as `"AB"`. -/
theorem c7_counterexample :
    skuJoinNormalize "AB" = "000AB" ∧ normalizeSku (some "AB") = "AB" ∧
      ("000AB" : String) ≠ "AB" := by
  decide

/-- C7 (amended): both normalizations strip and remove internal
whitespace; on all-digit SKUs they agree and zero-pad to width 5, but
the join-side variant zero-pads non-numeric SKUs as well (`normalize_sku`
leaves those unchanged), and any SKU of length at least 5 passes
through the padding unchanged. -/
theorem c7_sku_normalization (s : String) :
    skuJoinNormalize s = padLeftZeros 5 (removeSpaces (pyStrip s)) ∧
    (isDigitStr (removeSpaces (pyStrip s)) = true →
      skuJoinNormalize s = normalizeSku (some s)) ∧
    (isDigitStr (removeSpaces (pyStrip s)) = false →
      normalizeSku (some s) = removeSpaces (pyStrip s)) ∧
    (5 ≤ (removeSpaces (pyStrip s)).data.length →
      skuJoinNormalize s = removeSpaces (pyStrip s)) := by
  refine ⟨rfl, ?_, ?_, ?_⟩
  · intro h
    rw [normalizeSku]
    simp only [h, if_true]
    rfl
  · intro h
    rw [normalizeSku]
    simp only [h, Bool.false_eq_true, if_false]
  · intro h
    rw [skuJoinNormalize, padLeftZeros, Nat.sub_eq_zero_of_le h, List.replicate_zero,
      List.nil_append]

/-- C7 (witness): on the numeric SKU `"12 34"` both normalizations give
`"01234"`; on the non-numeric `"AB"` `normalize_sku` is the identity. -/
theorem c7_witness :
    skuJoinNormalize "12 34" = normalizeSku (some "12 34") ∧
      normalizeSku (some "12 34") = "01234" ∧ normalizeSku (some "AB") = "AB" := by
  refine ⟨(c7_sku_normalization "12 34").2.1 (by decide), by decide, ?_⟩
  rw [(c7_sku_normalization "AB").2.2.1 (by decide)]
  decide

/-- C8 (counterexample): round-tripping is not the identity within any
reasonable floating tolerance: `0.004` (= `1/250`) formats to `"0,00"`,
which parses back to `0` — an absolute error of `0.004` on a value of
magnitude `0.004`. -/
theorem c8_counterexample :
    parseCommaDecimal (formatToCommaDecimal (some (mkRat 1 250))) = 0 ∧
      (mkRat 1 250 : ℚ) ≠ 0 ∧
      parseCommaDecimal (formatToCommaDecimal (some (mkRat 1 250))) ≠ mkRat 1 250 := by
  decide

/-- C8 (amended): `1234.56` renders as `"1.234,56"` and `None`/NaN as
`"0,00"`; parsing the formatted string yields the original value
rounded to two decimals (banker's rounding) — hence the round trip is
the identity exactly on multiples of `0.01`. -/
theorem c8_format_parse (x : ℚ) (k : ℤ) :
    formatToCommaDecimal (some (1234.56 : ℚ)) = "1.234,56" ∧
    formatToCommaDecimal none = "0,00" ∧
    parseCommaDecimal (formatToCommaDecimal (some x)) = ((roundCents x : ℤ) : ℚ) / 100 ∧
    parseCommaDecimal (formatToCommaDecimal (some ((k : ℚ) / 100))) = (k : ℚ) / 100 := by
  refine ⟨?_, rfl, parseCommaDecimal_format x, ?_⟩
  · have h : (1234.56 : ℚ) = mkRat 123456 100 := by
      rw [Rat.mkRat_eq_divInt, Rat.divInt_eq_div]
      norm_num
    rw [h]
    decide
  · have h100 : 100 * ((k : ℚ) / 100) = ((k : ℤ) : ℚ) := by
      field_simp
    rw [parseCommaDecimal_format ((k : ℚ) / 100), roundCents_of_int h100]

/-- The stage behaviours used in the C9 counterexample and witness. -/
def stageOkU : Unit → Except String Unit := fun _ => Except.ok ()

def stageFailBoom : Unit → Except String Unit := fun _ => Except.error "boom"

def stageFailKpi : Unit → Except String Unit := fun _ => Except.error "kpi boom"

def stageOkP : Unit × Unit × Unit × Unit → Except String Unit := fun _ => Except.ok ()

/-- C9 (counterexample): the caller cannot tell which stage failed — a
run whose second stage (`_calculate_rfm_metrics`) raises `"boom"` and a
run whose fourth stage (`_analyze_preferences`) raises `"boom"` produce
literally the same `DataProcessingError`, whose `operation` field is
the fixed string `"process"`, not the failing stage's name. -/
theorem c9_counterexample :
    processModel stageOkU stageFailBoom stageOkU stageOkU stageOkP stageOkU ()
      = processModel stageOkU stageOkU stageOkU stageFailBoom stageOkP stageOkU () ∧
    processModel stageOkU stageFailBoom stageOkU stageOkU stageOkP stageOkU ()
      = Except.error { message := "RFM processing failed: boom"
                     , operation := some "process" } := by
  constructor <;> rfl

/-- C9 (amended): whenever any stage of the pipeline fails, the caller
receives exactly one typed `DataProcessingError` whose message wraps
the underlying error and whose `operation` field is the fixed string
`"process"` (the pipeline entry point, not the failing stage), and no
result is returned; successful runs are passed through unchanged. -/
theorem c9_process_errors {α₁ α₂ α₃ α₄ α₅ α₆ α₇ : Type}
    (f1 : α₁ → Except String α₂) (f2 : α₂ → Except String α₃)
    (f3 : α₂ → Except String α₄) (f4 : α₂ → Except String α₅)
    (f5 : α₂ × α₃ × α₄ × α₅ → Except String α₆) (f6 : α₆ → Except String α₇)
    (x : α₁) :
    (∀ e, runPipeline f1 f2 f3 f4 f5 f6 x = Except.error e →
      processModel f1 f2 f3 f4 f5 f6 x =
        Except.error { message := "RFM processing failed: " ++ e
                     , operation := some "process" }) ∧
    (∀ v, processModel f1 f2 f3 f4 f5 f6 x = Except.ok v ↔
      runPipeline f1 f2 f3 f4 f5 f6 x = Except.ok v) := by
  constructor
  · intro e he
    rw [processModel, he]
    rfl
  · intro v
    rw [processModel]
    cases runPipeline f1 f2 f3 f4 f5 f6 x with
    | ok w => simp [processTry]
    | error e => simp [processTry]

/-- C9 (witness): a run whose third stage (`_calculate_additional_kpis`)
raises `"kpi boom"` yields the single wrapped error with
`operation = "process"`. -/
theorem c9_witness :
    processModel stageOkU stageOkU stageFailKpi stageOkU stageOkP stageOkU ()
      = Except.error { message := "RFM processing failed: kpi boom"
                     , operation := some "process" } :=
  (c9_process_errors stageOkU stageOkU stageFailKpi stageOkU stageOkP stageOkU ()).1
    "kpi boom" rfl

/-- Concrete rows witnessing that the in-place column rewrites of C10
change the caller's buffers. -/
def demoOrder : OrderRow :=
  { id := "100000001", customerEmail := "User@Example.COM",
    purchaseDate := some { year := 2024, absDay := 739500 }, dateParsed := false,
    grandTotal := none, status := "processing", paymentMethod := "Factura A" }

def demoItem : ItemRow :=
  { orderId := "100000001", customerEmail := some "a@x.com", sku := "12 34",
    qtyOrdered := 1, rowTotal := 1 }

def demoCat : CatalogRow :=
  { sku := "123", productName := some "Cable", categories := some "Root/Cables",
    brand := some "Acme" }

/-- C10: `process` copies `customers` (the caller's frame is returned
unchanged) but mutates the other three arguments in place: every order
row has its e-mail lower-cased, its purchase date replaced by the
parsed value and its grand total coerced with NaN→0 (id, status and
payment method untouched), and every item and catalog row has its SKU
column rewritten with the zero-padded normalization; on the demo rows
these rewrites visibly change the buffers. -/
theorem c10_buffer_effects :
    (∀ (customers : List CustomerRow) (orders : List OrderRow)
        (items : List ItemRow) (catalog : List CatalogRow),
      processBufferEffects customers orders items catalog
        = (customers, orders.map ordersBufferEffect, items.map itemsBufferEffect,
            catalog.map catalogBufferEffect)) ∧
    (∀ o : OrderRow, (ordersBufferEffect o).id = o.id ∧
      (ordersBufferEffect o).status = o.status ∧
      (ordersBufferEffect o).paymentMethod = o.paymentMethod ∧
      (ordersBufferEffect o).customerEmail = pyLowerStr o.customerEmail ∧
      (ordersBufferEffect o).grandTotal = some (o.grandTotal.getD 0) ∧
      (ordersBufferEffect o).dateParsed = true) ∧
    (∀ it : ItemRow, (itemsBufferEffect it).sku = skuJoinNormalize it.sku ∧
      (itemsBufferEffect it).qtyOrdered = it.qtyOrdered) ∧
    (∀ c : CatalogRow, (catalogBufferEffect c).sku = skuJoinNormalize c.sku ∧
      (catalogBufferEffect c).productName = c.productName) ∧
    ordersBufferEffect demoOrder ≠ demoOrder ∧
    itemsBufferEffect demoItem ≠ demoItem ∧
    catalogBufferEffect demoCat ≠ demoCat := by
  refine ⟨fun _ _ _ _ => rfl, fun o => ⟨rfl, rfl, rfl, rfl, rfl, rfl⟩,
    fun it => ⟨rfl, rfl⟩, fun c => ⟨rfl, rfl⟩, ?_, ?_, ?_⟩
  · intro h
    have := congrArg OrderRow.customerEmail h
    revert this
    decide
  · intro h
    have := congrArg ItemRow.sku h
    revert this
    decide
  · intro h
    have := congrArg CatalogRow.sku h
    revert this
    decide

theorem chLe_refl : ∀ l : List Char, chLe l l = true := by
  intro l
  induction l with
  | nil => rfl
  | cons a t ih => simp [chLe, ih]

theorem strLe_refl (s : String) : strLe s s := chLe_refl s.data

theorem strLe_trans {a b c : String} (h1 : strLe a b) (h2 : strLe b c) : strLe a c :=
  chLe_trans a.data b.data c.data h1 h2

/-- The running best of `Series.idxmax` (strict-improvement fold). -/
def runBest (f : String → ℚ) (b : String) (ks : List String) : String :=
  ks.foldl (fun best k2 => if f k2 > f best then k2 else best) b

/-- On a list sorted by the group-key order, the `idxmax` fold returns
a maximiser of `f` that is least (in the key order) among all tied
maximisers. -/
theorem runBest_spec (f : String → ℚ) :
    ∀ (ks : List String) (b : String), List.Sorted strLe (b :: ks) →
      (runBest f b ks = b ∨ runBest f b ks ∈ ks) ∧
      (∀ k ∈ b :: ks, f k ≤ f (runBest f b ks)) ∧
      (∀ k ∈ b :: ks, f k = f (runBest f b ks) → strLe (runBest f b ks) k) := by
  intro ks
  induction ks with
  | nil =>
    intro b _
    refine ⟨Or.inl rfl, ?_, ?_⟩
    · intro k hk
      simp only [List.mem_cons, List.not_mem_nil, or_false] at hk
      subst hk
      exact le_refl _
    · intro k hk _
      simp only [List.mem_cons, List.not_mem_nil, or_false] at hk
      subst hk
      exact strLe_refl _
  | cons k2 t ih =>
    intro b hsorted
    have hparts := List.sorted_cons.mp hsorted
    have hbk2 : strLe b k2 := hparts.1 k2 (by simp)
    have hsorted_tail : List.Sorted strLe (k2 :: t) := hparts.2
    have htailparts := List.sorted_cons.mp hsorted_tail
    have hsorted_bt : List.Sorted strLe (b :: t) := by
      rw [List.sorted_cons]
      exact ⟨fun x hx => hparts.1 x (by simp [hx]), htailparts.2⟩
    by_cases hgt : f k2 > f b
    · have hstep : runBest f b (k2 :: t) = runBest f k2 t := by
        simp only [runBest, List.foldl_cons, if_pos hgt]
      obtain ⟨hmem, hle, htie⟩ := ih k2 hsorted_tail
      rw [hstep]
      refine ⟨?_, ?_, ?_⟩
      · rcases hmem with h | h
        · exact Or.inr (by simp [h])
        · exact Or.inr (by simp [h])
      · intro k hk
        rcases List.mem_cons.mp hk with h | h
        · subst h
          exact le_of_lt (lt_of_lt_of_le hgt (hle k2 (by simp)))
        · exact hle k h
      · intro k hk hke
        rcases List.mem_cons.mp hk with h | h
        · subst h
          exact absurd hke
            (ne_of_lt (lt_of_lt_of_le hgt (hle k2 (by simp))))
        · exact htie k h hke
    · have hstep : runBest f b (k2 :: t) = runBest f b t := by
        simp only [runBest, List.foldl_cons, if_neg hgt]
      obtain ⟨hmem, hle, htie⟩ := ih b hsorted_bt
      rw [hstep]
      have hfb : f b ≤ f (runBest f b t) := hle b (by simp)
      refine ⟨?_, ?_, ?_⟩
      · rcases hmem with h | h
        · exact Or.inl h
        · exact Or.inr (by simp [h])
      · intro k hk
        rcases List.mem_cons.mp hk with h | h
        · subst h
          exact hfb
        · rcases List.mem_cons.mp h with h2 | h2
          · subst h2
            exact le_trans (not_lt.mp hgt) hfb
          · exact hle k (by simp [h2])
      · intro k hk hke
        rcases List.mem_cons.mp hk with h | h
        · subst h
          exact htie _ (by simp) hke
        · rcases List.mem_cons.mp h with h2 | h2
          · subst h2
            have hfbe : f b = f (runBest f b t) := by
              have h3 : f k ≤ f b := not_lt.mp hgt
              linarith [hfb, hke]
            exact strLe_trans (htie b (by simp) hfbe) hbk2
          · exact htie k (by simp [h2]) hke

/-- C4 (counterexample): a customer buys category `"b"` (row 0, qty 1)
and then category `"a"` (row 1, qty 1) — the quantities tie.  The
first-occurrence rule of the claim selects `"b"`; the code's
`idxmax`-over-sorted-groups selects `"a"` (the alphabetically first
tied key), so the claim's tie-break is not the implemented one. -/
theorem c4_counterexample :
    preferredValue [("b", (1 : ℚ)), ("a", 1)]
      ≠ preferredValueFirstOccurrence [("b", (1 : ℚ)), ("a", 1)] := by
  have hqa : qtySum [("b", (1 : ℚ)), ("a", 1)] "a" = 1 := by
    simp [qtySum, List.filter_cons, show (("b" : String) == "a") = false from by decide,
      show (("a" : String) == "a") = true from by decide]
  have hqb : qtySum [("b", (1 : ℚ)), ("a", 1)] "b" = 1 := by
    simp [qtySum, List.filter_cons, show (("b" : String) == "b") = true from by decide,
      show (("a" : String) == "b") = false from by decide]
  have hkeys : groupKeys (List.map (fun p => p.1) [("b", (1 : ℚ)), ("a", 1)]) = ["a", "b"] := by
    decide
  have hfo : uniqFirstOcc (List.map (fun p => p.1) [("b", (1 : ℚ)), ("a", 1)]) = ["b", "a"] := by
    decide
  have h1 : preferredValue [("b", (1 : ℚ)), ("a", 1)] = some "a" := by
    rw [preferredValue, hkeys]
    simp only [firstArgmax, List.foldl_cons, List.foldl_nil, hqa, hqb]
    rw [if_neg (lt_irrefl (1 : ℚ))]
  have h2 : preferredValueFirstOccurrence [("b", (1 : ℚ)), ("a", 1)] = some "b" := by
    rw [preferredValueFirstOccurrence, hfo]
    simp only [firstArgmax, List.foldl_cons, List.foldl_nil, hqa, hqb]
    rw [if_neg (lt_irrefl (1 : ℚ))]
  rw [h1, h2]
  simp

/-- C4 (amended): the selected "preferred" value is a maximiser of the
summed quantity, and among tied maximisers it is the least key in the
code-point order of the sorted aggregation table (pandas sorts group
keys; `idxmax` takes the first maximum) — not the value of smallest
original row position. -/
theorem c4_preferred_tiebreak (pairs : List (String × ℚ)) (v : String)
    (hv : preferredValue pairs = some v) :
    v ∈ pairs.map (fun p => p.1) ∧
    (∀ k ∈ pairs.map (fun p => p.1), qtySum pairs k ≤ qtySum pairs v) ∧
    (∀ k ∈ pairs.map (fun p => p.1), qtySum pairs k = qtySum pairs v → strLe v k) := by
  rw [preferredValue] at hv
  rcases hkeys : groupKeys (pairs.map (fun p => p.1)) with - | ⟨b, ks⟩
  · rw [hkeys] at hv
    simp [firstArgmax] at hv
  · rw [hkeys] at hv
    simp only [firstArgmax, Option.some.injEq] at hv
    have hsorted : List.Sorted strLe (b :: ks) := by
      rw [← hkeys]
      exact sorted_groupKeys _
    obtain ⟨hmem, hle, htie⟩ := runBest_spec (qtySum pairs) ks b hsorted
    have hveq : runBest (qtySum pairs) b ks = v := hv
    have hmemkeys : ∀ k, k ∈ b :: ks ↔ k ∈ pairs.map (fun p => p.1) := by
      intro k
      rw [← hkeys, mem_groupKeys]
    refine ⟨?_, ?_, ?_⟩
    · rw [← hveq, ← hmemkeys]
      rcases hmem with h | h
      · simp [h]
      · simp [h]
    · intro k hk
      rw [← hveq]
      exact hle k ((hmemkeys k).mpr hk)
    · intro k hk hke
      rw [← hveq]
      exact htie k ((hmemkeys k).mpr hk) (by rw [← hveq] at hke; exact hke)

/-- C4 (witness): on the tied example the code selects `"a"`, which
maximises the summed quantity and is the least tied key. -/
theorem c4_witness :
    preferredValue [("b", (1 : ℚ)), ("a", 1)] = some "a" ∧
      qtySum [("b", (1 : ℚ)), ("a", 1)] "b" ≤ qtySum [("b", (1 : ℚ)), ("a", 1)] "a" ∧
      strLe "a" "b" := by
  have hqa : qtySum [("b", (1 : ℚ)), ("a", 1)] "a" = 1 := by
    simp [qtySum, List.filter_cons, show (("b" : String) == "a") = false from by decide,
      show (("a" : String) == "a") = true from by decide]
  have hqb : qtySum [("b", (1 : ℚ)), ("a", 1)] "b" = 1 := by
    simp [qtySum, List.filter_cons, show (("b" : String) == "b") = true from by decide,
      show (("a" : String) == "b") = false from by decide]
  have h1 : preferredValue [("b", (1 : ℚ)), ("a", 1)] = some "a" := by
    rw [preferredValue, show groupKeys (List.map (fun p => p.1) [("b", (1 : ℚ)), ("a", 1)])
      = ["a", "b"] from by decide]
    simp only [firstArgmax, List.foldl_cons, List.foldl_nil, hqa, hqb]
    rw [if_neg (lt_irrefl (1 : ℚ))]
  have h := c4_preferred_tiebreak [("b", (1 : ℚ)), ("a", 1)] "a" h1
  refine ⟨h1, h.2.1 "b" (by simp), h.2.2 "b" (by simp) ?_⟩
  rw [hqa, hqb]

/-! ### Structural lemmas about the pipeline output -/

/-- The cleaned image of an eligible raw order row. -/
def rawToClean (o : OrderRow) : CleanOrder :=
  { id := o.id, email := pyLowerStr o.customerEmail,
    date := o.purchaseDate.getD { year := 0, absDay := 0 },
    total := o.grandTotal.getD 0 }

/-- The per-customer group of cleaned orders, after the client-side
status/date filter and `_clean_data`, is exactly the cleaned image of
the raw rows that are eligible and whose lower-cased e-mail matches. -/
theorem group_eq (minYear : ℤ) (e : String) (raw : List OrderRow) :
    (cleanOrders minYear (fetchOrdersFilter minYear "processing" raw)).filter
        (fun o => o.email == e)
      = (raw.filter (fun o =>
          eligibleOrder minYear o && (pyLowerStr o.customerEmail == e))).map rawToClean := by
  induction raw with
  | nil => rfl
  | cons o t ih =>
    simp only [fetchOrdersFilter, cleanOrders, eligibleOrder] at ih ⊢
    rcases hpd : o.purchaseDate with - | d
    · simp [List.filter_cons, hpd, ih]
    · by_cases hst : o.status = "processing"
      · by_cases hyr : minYear ≤ d.year
        · by_cases hem : pyLowerStr o.customerEmail = e
          · simp [List.filter_cons, List.filterMap_cons, hpd, hst, hyr, hem, rawToClean, ih]
          · simp [List.filter_cons, List.filterMap_cons, hpd, hst, hyr, hem, rawToClean, ih]
        · simp [List.filter_cons, List.filterMap_cons, hpd, hst, hyr, ih]
      · simp [List.filter_cons, List.filterMap_cons, hpd, hst, ih]

/-- Every pair in the preference left join carries an RFM row of the
metrics frame. -/
theorem mem_rfmJoinPrefs {rfm : List RfmRow} {prefs : List (String × Option String)}
    {j : RfmRow × Option String} (hj : j ∈ rfmJoinPrefs rfm prefs) : j.1 ∈ rfm := by
  rw [rfmJoinPrefs] at hj
  obtain ⟨r, hr, hjr⟩ := List.mem_flatMap.mp hj
  split at hjr
  · simp only [List.mem_cons, List.not_mem_nil, or_false] at hjr
    rw [hjr]
    exact hr
  · obtain ⟨p, -, rfl⟩ := List.mem_map.mp hjr
    exact hr

/-- Destructuring a row of the pipeline output: it carries the group
aggregates of some e-mail key of the cleaned order set. -/
theorem mem_processOutput {minYear today : ℤ} {customers : List CustomerRow}
    {orders : List OrderRow} {items : List ItemRow} {catalog : List CatalogRow}
    {r : FinalRow}
    (hr : r ∈ processOutput minYear today customers orders items catalog) :
    r.email ∈ groupKeys ((cleanOrders minYear orders).map (fun o => o.email)) ∧
    r.frecuencia
      = ((cleanOrders minYear orders).filter (fun o => o.email == r.email)).length ∧
    r.ltv = (((cleanOrders minYear orders).filter (fun o => o.email == r.email)).map
        (fun o => o.total)).sum ∧
    r.primeraCompraDia = listMinD 0 (((cleanOrders minYear orders).filter
        (fun o => o.email == r.email)).map (fun o => o.date.absDay)) ∧
    r.diasComoCliente = (if today - r.primeraCompraDia = 0 then 1
        else today - r.primeraCompraDia) ∧
    r.tpec = ((calculateAdditionalKpis (cleanOrders minYear orders)).find?
        (fun k => k.email == r.email)).bind (fun k => k.tpec) := by
  rw [processOutput, mergeAllData] at hr
  obtain ⟨c, -, hr2⟩ := List.mem_flatMap.mp hr
  obtain ⟨j, hj, rfl⟩ := List.mem_map.mp hr2
  have hjm : j.1 ∈ calculateRfmMetrics today (cleanOrders minYear orders) :=
    mem_rfmJoinPrefs (List.mem_filter.mp hj).1
  rw [calculateRfmMetrics] at hjm
  obtain ⟨e, he, hje⟩ := List.mem_map.mp hjm
  have hje1 : j.1 = rfmRow today (cleanOrders minYear orders) e := hje.symm
  simp only [mkFinal]
  rw [hje1]
  exact ⟨he, rfl, rfl, rfl, rfl, trivial⟩

theorem find_kpi_aux (os : List CleanOrder) (e : String) :
    ∀ keys : List String, e ∈ keys →
      (keys.map (kpiRow os)).find? (fun k => k.email == e) = some (kpiRow os e) := by
  intro keys
  induction keys with
  | nil => intro he; simp at he
  | cons k t ih =>
    intro he
    by_cases hk : k = e
    · subst hk
      rw [List.map_cons, List.find?_cons_of_pos _ (by simp [kpiRow])]
    · rw [List.map_cons, List.find?_cons_of_neg _ (by simp [kpiRow, hk])]
      refine ih ?_
      rcases List.mem_cons.mp he with h | h
      · exact absurd h.symm hk
      · exact h

/-- `find?` over the KPI frame: every e-mail key hits its own KPI row. -/
theorem find_kpi (os : List CleanOrder) (e : String)
    (he : e ∈ groupKeys (os.map (fun o => o.email))) :
    (calculateAdditionalKpis os).find? (fun k => k.email == e) = some (kpiRow os e) := by
  rw [calculateAdditionalKpis]
  exact find_kpi_aux os e _ he

/-- C1: every row of the pipeline output (run on the client-filtered
order set) has `Frecuencia` equal to the number of raw orders that are
eligible (status `"processing"`, purchase year at least `min_year`)
and whose lower-cased customer e-mail equals the row's e-mail, and
`LTV_Gasto_Total` equal to the sum of those orders' grand totals
(NaN-coerced to `0`). -/
theorem c1_frequency_ltv (minYear today : ℤ) (customers : List CustomerRow)
    (raw : List OrderRow) (items : List ItemRow) (catalog : List CatalogRow)
    (r : FinalRow)
    (hr : r ∈ processOutput minYear today customers
        (fetchOrdersFilter minYear "processing" raw) items catalog) :
    r.frecuencia = (raw.filter (fun o =>
        eligibleOrder minYear o && (pyLowerStr o.customerEmail == r.email))).length ∧
    r.ltv = ((raw.filter (fun o =>
        eligibleOrder minYear o && (pyLowerStr o.customerEmail == r.email))).map
          (fun o => o.grandTotal.getD 0)).sum := by
  obtain ⟨-, hfrec, hltv, -, -, -⟩ := mem_processOutput hr
  constructor
  · rw [hfrec, group_eq minYear r.email raw, List.length_map]
  · rw [hltv, group_eq minYear r.email raw, List.map_map]
    rfl

/-- C6: in every output row of a customer with exactly one eligible
order, `Tiempo_Promedio_Entre_Compras` is null (never zero); and for
every output row, a first purchase on the reference day yields
`Dias_Como_Cliente` equal to 1 (the zero-day floor), not 0. -/
theorem c6_single_order (minYear today : ℤ) (customers : List CustomerRow)
    (orders : List OrderRow) (items : List ItemRow) (catalog : List CatalogRow)
    (r : FinalRow)
    (hr : r ∈ processOutput minYear today customers orders items catalog) :
    (r.frecuencia = 1 → r.tpec = none) ∧
    (r.primeraCompraDia = today → r.diasComoCliente = 1) := by
  obtain ⟨he, hfrec, -, hprim, hdias, htpec⟩ := mem_processOutput hr
  constructor
  · intro h1
    rw [htpec, find_kpi _ _ he]
    show (kpiRow (cleanOrders minYear orders) r.email).tpec = none
    rw [kpiRow]
    have hlen : (((cleanOrders minYear orders).filter
        (fun o => o.email == r.email)).map (fun o => o.date.absDay)).length = 1 := by
      rw [List.length_map, ← hfrec, h1]
    rw [avgGapDays]
    rw [if_pos ?_]
    rw [(List.perm_insertionSort (fun x1 x2 => x1 ≤ x2) _).length_eq, hlen]
  · intro h2
    rw [hdias, h2]
    simp

/-- The concrete inputs of the C1 witness run: one customer, one
eligible order (status `"processing"`, year 2024, total 5). -/
def c1customer : CustomerRow :=
  { id := "7", email := "A@x", firstname := none, lastname := none }

def c1order : OrderRow :=
  { id := "10", customerEmail := "a@X",
    purchaseDate := some { year := 2024, absDay := 900 }, dateParsed := false,
    grandTotal := some 5, status := "processing", paymentMethod := "x" }

/-- The single output row of the C1 witness run. -/
def c1row : FinalRow :=
  { email := "a@x", name := "Sin Nombre", custId := "7", frecuencia := 1, ltv := 5,
    recenciaDias := 100, primeraCompraDia := 900, diasComoCliente := 100,
    tpec := none, favProductName := none }

theorem c1out_eq : processOutput 2024 1000 [c1customer]
    (fetchOrdersFilter 2024 "processing" [c1order]) [] [] = [c1row] := by
  have h1 : pyLowerStr "a@X" = "a@x" := by decide
  have h2 : pyLowerStr "A@x" = "a@x" := by decide
  have h3 : mkName none none = "Sin Nombre" := by decide
  have h4 : groupKeys ["a@x"] = ["a@x"] := by decide
  have h5 : groupKeys ([] : List String) = [] := rfl
  simp [processOutput, mergeAllData, mkFinal, rfmJoinPrefs, cleanOrders, cleanCustomers,
    calculateRfmMetrics, calculateAdditionalKpis, prefRows, itemsCleaned,
    prefRowsFor, fetchOrdersFilter, c1customer, c1order, c1row, rfmRow, kpiRow,
    avgGapDays, listMinD, listMaxD, List.insertionSort, List.orderedInsert, pairGaps,
    List.find?, h1, h2, h3, h4, h5, FinalRow.mk.injEq]

/-! ### Row-multiplicity lemmas for the merged output -/

theorem countP_flatMap {α β : Type} (p : β → Bool) (f : α → List β) :
    ∀ l : List α, (l.flatMap f).countP p = (l.map (fun a => (f a).countP p)).sum := by
  intro l
  induction l with
  | nil => rfl
  | cons a t ih => simp [List.flatMap_cons, List.countP_append, ih]

theorem sum_if_key {α : Type} (key : α → String) (v : ℕ) (e : String) :
    ∀ l : List α, (l.map key).Nodup →
      (l.map (fun a => if key a = e then v else 0)).sum
        = if e ∈ l.map key then v else 0 := by
  intro l
  induction l with
  | nil => intro _; simp
  | cons a t ih =>
    intro hnd
    rw [List.map_cons, List.nodup_cons] at hnd
    obtain ⟨hna, hnd2⟩ := hnd
    by_cases he : key a = e
    · have hnot : e ∉ t.map key := fun hm => hna (he ▸ hm)
      rw [List.map_cons, List.sum_cons, if_pos he, ih hnd2, if_neg hnot,
        List.map_cons,
        if_pos (show e ∈ key a :: t.map key from List.mem_cons.mpr (Or.inl he.symm))]
      omega
    · rw [List.map_cons, List.sum_cons, if_neg he, ih hnd2, List.map_cons]
      have hiff : (e ∈ key a :: t.map key) ↔ e ∈ t.map key := by
        rw [List.mem_cons]
        constructor
        · rintro (h | h)
          · exact absurd h.symm he
          · exact h
        · exact Or.inr
      by_cases hm : e ∈ t.map key
      · rw [if_pos hm, if_pos (hiff.mpr hm)]
        omega
      · rw [if_neg hm, if_neg (fun hc => hm (hiff.mp hc))]

theorem countP_key_nodup {α : Type} (key : α → String) (e : String) :
    ∀ l : List α, (l.map key).Nodup →
      l.countP (fun a => key a == e) = if e ∈ l.map key then 1 else 0 := by
  intro l
  induction l with
  | nil => intro _; simp
  | cons a t ih =>
    intro hnd
    rw [List.map_cons, List.nodup_cons] at hnd
    obtain ⟨hna, hnd2⟩ := hnd
    rw [List.countP_cons, ih hnd2, List.map_cons]
    by_cases he : key a = e
    · have hnot : e ∉ t.map key := fun hm => hna (he ▸ hm)
      rw [if_neg hnot,
        if_pos (show e ∈ key a :: t.map key from List.mem_cons.mpr (Or.inl he.symm)),
        if_pos (show (key a == e) = true by simp [he])]
    · rw [if_neg (show ¬ ((key a == e) = true) by simp [he])]
      have hiff : (e ∈ key a :: t.map key) ↔ e ∈ t.map key := by
        rw [List.mem_cons]
        constructor
        · rintro (h | h)
          · exact absurd h.symm he
          · exact h
        · exact Or.inr
      by_cases hm : e ∈ t.map key
      · rw [if_pos hm, if_pos (hiff.mpr hm)]
      · rw [if_neg hm, if_neg (fun hc => hm (hiff.mp hc))]

theorem length_filter_key_nodup {α : Type} (key : α → String) (v : String)
    (l : List α) (hnd : (l.map key).Nodup) :
    (l.filter (fun a => key a == v)).length ≤ 1 := by
  rw [← List.countP_eq_length_filter, countP_key_nodup key v l hnd]
  split <;> omega

theorem prefRowsFor_fst (items : List ItemRow) (catalog : List CatalogRow)
    (k : String) : ∀ j ∈ prefRowsFor items catalog k, j.1 = k := by
  intro j hj
  rw [prefRowsFor] at hj
  cases hfs : favoriteSku items k with
  | none =>
    rw [hfs] at hj
    simp only [List.mem_cons, List.not_mem_nil, or_false] at hj
    rw [hj]
  | some fs =>
    rw [hfs] at hj
    simp only at hj
    split at hj
    · simp only [List.mem_cons, List.not_mem_nil, or_false] at hj
      rw [hj]
    · obtain ⟨m, -, rfl⟩ := List.mem_map.mp hj
      rfl

theorem prefRowsFor_len_le_one (items : List ItemRow) (catalog : List CatalogRow)
    (hcat : (catalog.map (fun c => skuJoinNormalize c.sku)).Nodup) (k : String) :
    (prefRowsFor items catalog k).length ≤ 1 := by
  rw [prefRowsFor]
  cases favoriteSku items k with
  | none => simp
  | some fs =>
    show (if (catalog.filter (fun c => skuJoinNormalize c.sku == fs)).isEmpty
      then [(k, (none : Option String))]
      else (catalog.filter (fun c => skuJoinNormalize c.sku == fs)).map
        (fun m => (k, m.productName))).length ≤ 1
    by_cases hemp : (catalog.filter (fun c => skuJoinNormalize c.sku == fs)).isEmpty
    · rw [if_pos hemp]
      simp
    · rw [if_neg hemp, List.length_map]
      exact length_filter_key_nodup (fun c : CatalogRow => skuJoinNormalize c.sku)
        fs catalog hcat

theorem filter_key_flatMap_le_one (rows : String → List (String × Option String))
    (hfst : ∀ k, ∀ j ∈ rows k, j.1 = k)
    (hlen : ∀ k, (rows k).length ≤ 1) :
    ∀ keys : List String, keys.Nodup → ∀ v : String,
      ((keys.flatMap rows).filter (fun p => p.1 == v)).length ≤ 1 := by
  intro keys
  induction keys with
  | nil => intro _ v; simp
  | cons k t ih =>
    intro hnd v
    obtain ⟨hkt, hnd2⟩ := List.nodup_cons.mp hnd
    rw [List.flatMap_cons, List.filter_append, List.length_append]
    by_cases hkv : k = v
    · have htail : ((t.flatMap rows).filter (fun p => p.1 == v)).length = 0 := by
        rw [List.length_eq_zero, List.filter_eq_nil_iff]
        intro j hj
        obtain ⟨k2, hk2, hjk2⟩ := List.mem_flatMap.mp hj
        have hk2v : k2 ≠ v := fun hc => hkt (hkv ▸ hc ▸ hk2)
        simp [hfst k2 j hjk2, hk2v]
      have hhead : ((rows k).filter (fun p => p.1 == v)).length ≤ (rows k).length :=
        List.length_filter_le _ _
      have := hlen k
      omega
    · have hhead : ((rows k).filter (fun p => p.1 == v)).length = 0 := by
        rw [List.length_eq_zero, List.filter_eq_nil_iff]
        intro j hj
        simp [hfst k j hj, hkv]
      rw [hhead]
      simpa using ih hnd2 v

theorem prefRows_key_le_one (items : List ItemRow) (catalog : List CatalogRow)
    (hcat : (catalog.map (fun c => skuJoinNormalize c.sku)).Nodup) (v : String) :
    ((prefRows items catalog).filter (fun p => p.1 == v)).length ≤ 1 := by
  rw [prefRows]
  exact filter_key_flatMap_le_one (prefRowsFor items catalog)
    (prefRowsFor_fst items catalog) (prefRowsFor_len_le_one items catalog hcat)
    _ (nodup_groupKeys _) v

theorem countP_variants (prefs : List (String × Option String)) (r : RfmRow)
    (e : String)
    (hpref : ∀ v : String, ((prefs.filter (fun p => p.1 == v)).length ≤ 1)) :
    ((if (prefs.filter (fun p => p.1 == r.email)).isEmpty
      then [(r, (none : Option String))]
      else (prefs.filter (fun p => p.1 == r.email)).map (fun p => (r, p.2))).countP
        (fun j => j.1.email == e))
      = if r.email = e then 1 else 0 := by
  by_cases hemp : (prefs.filter (fun p => p.1 == r.email)).isEmpty
  · rw [if_pos hemp]
    by_cases he : r.email = e <;> simp [List.countP_cons, he]
  · rw [if_neg hemp]
    rw [List.countP_map]
    by_cases he : r.email = e
    · rw [if_pos he]
      have hall : (prefs.filter (fun p => p.1 == r.email)).countP
          ((fun j : RfmRow × Option String => j.1.email == e) ∘ (fun p => (r, p.2)))
            = (prefs.filter (fun p => p.1 == r.email)).length :=
        List.countP_eq_length.mpr (fun p _ => by simp [Function.comp, he])
      rw [hall]
      have hge : (prefs.filter (fun p => p.1 == r.email)).length ≠ 0 := by
        intro hc
        rw [List.length_eq_zero] at hc
        rw [hc] at hemp
        exact hemp rfl
      have := hpref r.email
      omega
    · rw [if_neg he]
      exact List.countP_eq_zero.mpr (fun p _ => by simp [Function.comp, he])

theorem countP_mergeRow (rfm : List RfmRow) (kpis : List KpiRow)
    (prefs : List (String × Option String)) (c : CleanCustomer) (e : String) :
    (((rfmJoinPrefs rfm prefs).filter (fun j => j.1.email == c.email)).map
        (mkFinal kpis c)).countP (fun r => r.email == e)
      = if c.email = e
        then (rfmJoinPrefs rfm prefs).countP (fun j => j.1.email == e)
        else 0 := by
  rw [List.countP_map]
  by_cases hce : c.email = e
  · rw [if_pos hce]
    subst hce
    show ((rfmJoinPrefs rfm prefs).filter
        (fun j => j.1.email == c.email)).countP (fun j => j.1.email == c.email) = _
    rw [List.countP_filter]
    have hf : (fun (j : RfmRow × Option String) =>
        (j.1.email == c.email) && (j.1.email == c.email))
          = fun j => j.1.email == c.email :=
      funext (fun j => Bool.and_self _)
    rw [hf]
  · rw [if_neg hce]
    refine List.countP_eq_zero.mpr (fun j hj => ?_)
    have h3 : j.1.email = c.email := by
      simpa using (List.mem_filter.mp hj).2
    simp [Function.comp, mkFinal, h3, hce]

theorem countP_mergeAllData (cs : List CleanCustomer) (rfm : List RfmRow)
    (kpis : List KpiRow) (prefs : List (String × Option String)) (e : String)
    (hcs : (cs.map (fun c => c.email)).Nodup)
    (hrfm : (rfm.map (fun r => r.email)).Nodup)
    (hpref : ∀ v : String, ((prefs.filter (fun p => p.1 == v)).length ≤ 1)) :
    (mergeAllData cs rfm kpis prefs).countP (fun r => r.email == e)
      = if e ∈ rfm.map (fun r => r.email) ∧ e ∈ cs.map (fun c => c.email)
        then 1 else 0 := by
  have hJ : (rfmJoinPrefs rfm prefs).countP (fun j => j.1.email == e)
      = if e ∈ rfm.map (fun r => r.email) then 1 else 0 := by
    rw [rfmJoinPrefs, countP_flatMap]
    rw [List.map_congr_left (fun r (_ : r ∈ rfm) => countP_variants prefs r e hpref)]
    exact sum_if_key (fun r : RfmRow => r.email) 1 e rfm hrfm
  rw [mergeAllData, countP_flatMap]
  rw [List.map_congr_left (fun c (_ : c ∈ cs) => countP_mergeRow rfm kpis prefs c e)]
  by_cases hin : e ∈ rfm.map (fun r => r.email)
  · rw [if_pos] at hJ
    · have : (cs.map (fun c =>
          if c.email = e
          then (rfmJoinPrefs rfm prefs).countP (fun j => j.1.email == e) else 0)).sum
            = if e ∈ cs.map (fun c => c.email)
              then (rfmJoinPrefs rfm prefs).countP (fun j => j.1.email == e) else 0 :=
        sum_if_key (fun c : CleanCustomer => c.email) _ e cs hcs
      rw [this, hJ]
      by_cases hcm : e ∈ cs.map (fun c => c.email)
      · rw [if_pos hcm, if_pos ⟨hin, hcm⟩]
      · rw [if_neg hcm, if_neg (fun hc => hcm hc.2)]
    · exact hin
  · rw [if_neg hin] at hJ
    have hz : cs.map (fun c =>
        if c.email = e
        then (rfmJoinPrefs rfm prefs).countP (fun j => j.1.email == e) else 0)
          = cs.map (fun _ => 0) :=
      List.map_congr_left (fun c _ => by rw [hJ, ite_self])
    rw [hz, if_neg (fun hc => hin hc.1)]
    simp

theorem rfm_emails (today : ℤ) (os : List CleanOrder) :
    (calculateRfmMetrics today os).map (fun r => r.email)
      = groupKeys (os.map (fun o => o.email)) := by
  rw [calculateRfmMetrics, List.map_map]
  have h : ((fun r : RfmRow => r.email) ∘ rfmRow today os) = id := rfl
  rw [h, List.map_id]

/-- C2: run on the client-filtered order set, and provided the customer
file has no duplicate (lower-cased) e-mails and the catalog no duplicate
normalized SKUs (the key--uniqueness assumptions of the data model), the
pipeline output has exactly one row per e-mail that occurs both among
the cleaned eligible orders and among the cleaned customers, and zero
rows for any other e-mail; in particular a customer with zero eligible
orders contributes no row (inner-join exclusion). -/
theorem c2_one_row_per_email (minYear today : ℤ) (customers : List CustomerRow)
    (raw : List OrderRow) (items : List ItemRow) (catalog : List CatalogRow)
    (e : String)
    (hcust : ((cleanCustomers customers).map (fun c => c.email)).Nodup)
    (hcat : (catalog.map (fun c => skuJoinNormalize c.sku)).Nodup) :
    (processOutput minYear today customers (fetchOrdersFilter minYear "processing" raw)
        items catalog).countP (fun r => r.email == e)
      = (if e ∈ (cleanOrders minYear (fetchOrdersFilter minYear "processing" raw)).map
              (fun o => o.email)
            ∧ e ∈ (cleanCustomers customers).map (fun c => c.email)
          then 1 else 0)
    ∧ ((raw.filter (fun o =>
          eligibleOrder minYear o && (pyLowerStr o.customerEmail == e))).length = 0 →
        (processOutput minYear today customers
            (fetchOrdersFilter minYear "processing" raw) items catalog).countP
          (fun r => r.email == e) = 0) := by
  have hrfm : ((calculateRfmMetrics today (cleanOrders minYear
      (fetchOrdersFilter minYear "processing" raw))).map (fun r => r.email)).Nodup := by
    rw [rfm_emails]
    exact nodup_groupKeys _
  have hmain : (processOutput minYear today customers
      (fetchOrdersFilter minYear "processing" raw) items catalog).countP
        (fun r => r.email == e)
      = if e ∈ (cleanOrders minYear (fetchOrdersFilter minYear "processing" raw)).map
            (fun o => o.email)
          ∧ e ∈ (cleanCustomers customers).map (fun c => c.email)
        then 1 else 0 := by
    rw [processOutput]
    rw [countP_mergeAllData _ _ _ _ e hcust hrfm (prefRows_key_le_one items catalog hcat)]
    rw [rfm_emails]
    simp only [mem_groupKeys]
  refine ⟨hmain, fun hzero => ?_⟩
  rw [hmain]
  have hnot : ¬ (e ∈ (cleanOrders minYear
        (fetchOrdersFilter minYear "processing" raw)).map (fun o => o.email)
      ∧ e ∈ (cleanCustomers customers).map (fun c => c.email)) := by
    rintro ⟨h1, -⟩
    obtain ⟨o, ho, hoe⟩ := List.mem_map.mp h1
    have hmem : o ∈ (cleanOrders minYear
        (fetchOrdersFilter minYear "processing" raw)).filter (fun o2 => o2.email == e) :=
      List.mem_filter.mpr ⟨ho, by simp [hoe]⟩
    rw [group_eq] at hmem
    have hpos := List.length_pos_of_mem hmem
    rw [List.length_map] at hpos
    omega
  rw [if_neg hnot]

theorem c1_witness :
    c1row ∈ processOutput 2024 1000 [c1customer]
        (fetchOrdersFilter 2024 "processing" [c1order]) [] [] ∧
    c1row.frecuencia = ([c1order].filter (fun o =>
        eligibleOrder 2024 o && (pyLowerStr o.customerEmail == c1row.email))).length ∧
    c1row.ltv = (([c1order].filter (fun o =>
        eligibleOrder 2024 o && (pyLowerStr o.customerEmail == c1row.email))).map
          (fun o => o.grandTotal.getD 0)).sum := by
  have hmem : c1row ∈ processOutput 2024 1000 [c1customer]
      (fetchOrdersFilter 2024 "processing" [c1order]) [] [] := by
    rw [c1out_eq]
    exact List.mem_singleton.mpr rfl
  exact ⟨hmem, c1_frequency_ltv 2024 1000 [c1customer] [c1order] [] [] c1row hmem⟩

theorem c2_witness :
    ((cleanCustomers [c1customer]).map (fun c => c.email)).Nodup ∧
    (([] : List CatalogRow).map (fun c => skuJoinNormalize c.sku)).Nodup ∧
    (processOutput 2024 1000 [c1customer]
        (fetchOrdersFilter 2024 "processing" [c1order]) [] []).countP
      (fun r => r.email == "a@x") = 1 := by
  have hcust : ((cleanCustomers [c1customer]).map (fun c => c.email)).Nodup := by
    decide
  have hcat : (([] : List CatalogRow).map (fun c => skuJoinNormalize c.sku)).Nodup :=
    List.nodup_nil
  have h := (c2_one_row_per_email 2024 1000 [c1customer] [c1order] [] [] "a@x"
    hcust hcat).1
  have hin1 : "a@x" ∈ (cleanOrders 2024
      (fetchOrdersFilter 2024 "processing" [c1order])).map (fun o => o.email) := by
    decide
  have hin2 : "a@x" ∈ (cleanCustomers [c1customer]).map (fun c => c.email) := by
    decide
  refine ⟨hcust, hcat, ?_⟩
  rw [h, if_pos ⟨hin1, hin2⟩]

/-- The concrete inputs of the C6 witness run: the single eligible order
is placed on the reference day itself (`today = 900`). -/
def c6order : OrderRow :=
  { id := "11", customerEmail := "a@X",
    purchaseDate := some { year := 2024, absDay := 900 }, dateParsed := false,
    grandTotal := some 5, status := "processing", paymentMethod := "x" }

def c6row : FinalRow :=
  { email := "a@x", name := "Sin Nombre", custId := "7", frecuencia := 1, ltv := 5,
    recenciaDias := 0, primeraCompraDia := 900, diasComoCliente := 1,
    tpec := none, favProductName := none }

theorem c6out_eq : processOutput 2024 900 [c1customer]
    (fetchOrdersFilter 2024 "processing" [c6order]) [] [] = [c6row] := by
  have h1 : pyLowerStr "a@X" = "a@x" := by decide
  have h2 : pyLowerStr "A@x" = "a@x" := by decide
  have h3 : mkName none none = "Sin Nombre" := by decide
  have h4 : groupKeys ["a@x"] = ["a@x"] := by decide
  have h5 : groupKeys ([] : List String) = [] := rfl
  simp [processOutput, mergeAllData, mkFinal, rfmJoinPrefs, cleanOrders, cleanCustomers,
    calculateRfmMetrics, calculateAdditionalKpis, prefRows, itemsCleaned,
    prefRowsFor, fetchOrdersFilter, c1customer, c6order, c6row, rfmRow, kpiRow,
    avgGapDays, listMinD, listMaxD, List.insertionSort, List.orderedInsert, pairGaps,
    List.find?, h1, h2, h3, h4, h5, FinalRow.mk.injEq]

theorem c6_witness :
    c6row ∈ processOutput 2024 900 [c1customer]
        (fetchOrdersFilter 2024 "processing" [c6order]) [] [] ∧
    c6row.frecuencia = 1 ∧ c6row.primeraCompraDia = 900 ∧
    c6row.tpec = none ∧ c6row.diasComoCliente = 1 := by
  have hmem : c6row ∈ processOutput 2024 900 [c1customer]
      (fetchOrdersFilter 2024 "processing" [c6order]) [] [] := by
    rw [c6out_eq]
    exact List.mem_singleton.mpr rfl
  have h := c6_single_order 2024 900 [c1customer]
    (fetchOrdersFilter 2024 "processing" [c6order]) [] [] c6row hmem
  exact ⟨hmem, rfl, rfl, h.1 rfl, h.2 rfl⟩
